import Mathlib

/-!
# Verification of the radiology on-call scheduling engine

A shallow embedding of the scheduling logic of `create_oncall_schedule_v3.py`
(with the target calculator of `oncall_scheduler_enhanced_streamlit.py`, the
MRI pass of `new_mri_method.py`, and the writer of `new_write_method.py`),
together with proofs and refutations of the specification claims.

Conventions:
* Python `int` values are `ℕ`/`ℤ`; Python `float` arithmetic is modelled
  exactly over `ℚ` (all values produced by the code are finite sums,
  differences, products and quotients of small integer data).
* Python dicts indexed by day are modelled as functions `ℕ → Option Rad`;
  Python sets of days as `ℕ → Bool` predicates.
* Python's `min(scores, key=scores.get)` keeps the earliest key attaining
  the minimum (strictly-smaller replacement during iteration); `pyMin`
  below reproduces that.
* A Python `ZeroDivisionError` is modelled by `Option`-valued "checked"
  variants of the arithmetic (`tryDiv`).
-/

namespace Schedules

/-! ## Calendar arithmetic (Python `calendar` / `datetime.weekday`) -/

/-- Gregorian leap year test, as in Python's `calendar.isleap`. -/
def isLeapYear (y : ℕ) : Bool :=
  (y % 4 == 0 && y % 100 != 0) || (y % 400 == 0)

/-- `calendar.monthrange(y, m)[1]`: number of days in month `m` of year `y`. -/
def daysInMonth (y m : ℕ) : ℕ :=
  if m = 2 then (if isLeapYear y then 29 else 28)
  else if m = 4 ∨ m = 6 ∨ m = 9 ∨ m = 11 then 30
  else 31

/-- Days in all months strictly before month `m` of year `y`. -/
def daysBeforeMonth (y m : ℕ) : ℕ :=
  ((List.range (m - 1)).map (fun i => daysInMonth y (i + 1))).sum

/-- Days in all years strictly before year `y` (proleptic Gregorian). -/
def daysBeforeYear (y : ℕ) : ℕ :=
  365 * (y - 1) + (y - 1) / 4 - (y - 1) / 100 + (y - 1) / 400

/-- `datetime.date(y, m, d).toordinal()`: day count with Jan 1 of year 1 = 1. -/
def toOrdinal (y m d : ℕ) : ℕ :=
  daysBeforeYear y + daysBeforeMonth y m + d

/-- `datetime.date(y, m, d).weekday()`: Monday = 0 … Sunday = 6. -/
def pyWeekday (y m d : ℕ) : ℕ :=
  (toOrdinal y m d + 6) % 7

/-- The three day types used throughout the scheduler. -/
inductive DayType
  | weekday
  | thu
  | weekend
deriving DecidableEq, Repr

/-- `get_day_type` / `get_day_type_from_date`: Thursday ↦ `thu`,
Friday/Saturday ↦ `weekend`, everything else ↦ `weekday`. -/
def dayTypeOf (y m d : ℕ) : DayType :=
  let w := pyWeekday y m d
  if w = 3 then .thu
  else if w = 4 ∨ w = 5 then .weekend
  else .weekday

/-! ## Rads and section pools (module-level constants of the source) -/

/-- Rad identifiers are short strings, exactly as in the source. -/
abbrev Rad := String

def GEN_RADS : List Rad := ["NN", "MB", "LK", "PR", "AT", "AK", "MC", "AO", "MM"]

def GEN_RADS_WITH_IRA : List Rad :=
  ["NN", "MB", "LK", "PR", "AT", "AK", "MC", "AO", "MM", "IG", "MF", "AS"]

def IRA_RADS : List Rad := ["IG", "MF", "AS"]

def MRI_RADS : List Rad := ["PR", "AT", "AK", "MC", "AO", "MM", "MF", "AS"]

/-- `set(GEN_RADS + IRA_RADS + MRI_RADS)` (iteration order fixed here; the
claims only use membership). -/
def ALL_RADS : List Rad := (GEN_RADS ++ IRA_RADS ++ MRI_RADS).dedup

/-- `START_DATES` of `create_oncall_schedule_v3.py` as a total function
(every rad the code looks up is present in the dict; others default to
`(1, 1)` as in the `.get(rad, (1, 1))` display call). -/
def START_DATES : Rad → ℕ × ℕ := fun r =>
  if r = "NN" then (7, 15)
  else if r = "PR" then (7, 15)
  else if r = "IG" then (5, 1)
  else (1, 1)

/-- `START_DATES` of `oncall_scheduler_enhanced_streamlit.py` (NN and PR
start July 1 there). -/
def START_DATES_SL : Rad → ℕ × ℕ := fun r =>
  if r = "NN" then (7, 1)
  else if r = "PR" then (7, 1)
  else if r = "IG" then (5, 1)
  else (1, 1)

/-! ## Holidays -/

/-- Lexicographic `≤` on (month, day) pairs; `datetime` comparison of two
dates of the same year reduces to this. -/
def mdLe (a b : ℕ × ℕ) : Bool :=
  a.1 < b.1 || (a.1 == b.1 && a.2 ≤ b.2)

/-- `holiday_ranges` of `calculate_ytd_targets` in
`create_oncall_schedule_v3.py` (all bounds are fixed month/day pairs of the
processing year). -/
def holidayRangesV3 : List ((ℕ × ℕ) × (ℕ × ℕ)) :=
  [((2, 23), (2, 23)), ((3, 27), (4, 5)), ((6, 5), (6, 14)), ((9, 23), (9, 23))]

/-- `is_holiday` (v3): date falls in one of the configured ranges. -/
def isHolidayV3 (m d : ℕ) : Bool :=
  holidayRangesV3.any (fun rg => mdLe rg.1 (m, d) && mdLe (m, d) rg.2)

/-- `HOLIDAY_PERIODS` of the streamlit version. -/
def holidayRangesSL : List ((ℕ × ℕ) × (ℕ × ℕ)) :=
  [((3, 27), (4, 5)), ((6, 5), (6, 14))]

/-- `is_holiday` (streamlit). -/
def isHolidaySL (m d : ℕ) : Bool :=
  holidayRangesSL.any (fun rg => mdLe rg.1 (m, d) && mdLe (m, d) rg.2)

/-! ## v3 YTD target calculator (`calculate_ytd_targets`, lines 298-396) -/

/-- `count_rad_available_days_ytd(start_month, start_day)` for processing
month `M` of year `y`: non-holiday days of type `t` from the start date
through the end of month `M`. -/
def countAvailV3 (y M sm sd : ℕ) (t : DayType) : ℕ :=
  (((List.range' sm (M + 1 - sm)).map (fun month =>
    let s := if month = sm then sd else 1
    ((List.range' s (daysInMonth y month + 1 - s)).filter (fun day =>
      !isHolidayV3 month day && dayTypeOf y month day == t)).length)).sum)

/-- `total_working_days_ytd`: all non-holiday days of type `t` from Jan 1
through end of month `M`. -/
def totalWorkingDaysV3 (y M : ℕ) (t : DayType) : ℕ :=
  countAvailV3 y M 1 1 t

/-- `gen_total_working_days`: the GEN totals with the manual adjustment
`gen_total_working_days['weekend'] -= 1` (AS covered one GEN weekend in
February).  Python `int` subtraction, hence `ℤ`. -/
def genTotalWorkingDaysV3 (y M : ℕ) (t : DayType) : ℤ :=
  (totalWorkingDaysV3 y M t : ℤ) - (if t = .weekend then 1 else 0)

/-- Availability count of one rad, from a start-dates table `sd`. -/
def radAvailV3 (y M : ℕ) (sd : Rad → ℕ × ℕ) (r : Rad) (t : DayType) : ℕ :=
  countAvailV3 y M (sd r).1 (sd r).2 t

/-- `gen_total_availability_shares[day_type]`: sum over `GEN_RADS` of
`available / gen_total_working_days` (exact rational arithmetic). -/
def genShareSumV3 (y M : ℕ) (sd : Rad → ℕ × ℕ) (t : DayType) : ℚ :=
  (GEN_RADS.map (fun r => (radAvailV3 y M sd r t : ℚ) / (genTotalWorkingDaysV3 y M t : ℚ))).sum

/-- GEN target of one rad (v3): `(Total_days / Total_shares) * Rad_share`
when the share sum is positive, else `0.0`. -/
def genTargetV3 (y M : ℕ) (sd : Rad → ℕ × ℕ) (r : Rad) (t : DayType) : ℚ :=
  let S := genShareSumV3 y M sd t
  if 0 < S then
    ((genTotalWorkingDaysV3 y M t : ℚ) / S) *
      ((radAvailV3 y M sd r t : ℚ) / (genTotalWorkingDaysV3 y M t : ℚ))
  else 0

/-- `ira_total_availability_shares[day_type]` (no weekend adjustment). -/
def iraShareSumV3 (y M : ℕ) (sd : Rad → ℕ × ℕ) (t : DayType) : ℚ :=
  (IRA_RADS.map (fun r => (radAvailV3 y M sd r t : ℚ) / (totalWorkingDaysV3 y M t : ℚ))).sum

/-- IRA target of one rad (v3). -/
def iraTargetV3 (y M : ℕ) (sd : Rad → ℕ × ℕ) (r : Rad) (t : DayType) : ℚ :=
  let S := iraShareSumV3 y M sd t
  if 0 < S then
    ((totalWorkingDaysV3 y M t : ℚ) / S) *
      ((radAvailV3 y M sd r t : ℚ) / (totalWorkingDaysV3 y M t : ℚ))
  else 0

/-- The full v3 `targets` dict: GEN rads get GEN targets, IRA rads IRA
targets; `calculate_workload_score` falls back to zeros for anyone else
(`self.ytd_targets.get(rad, {...: 0})`). -/
def ytdTargetsV3 (y M : ℕ) (sd : Rad → ℕ × ℕ) (r : Rad) (t : DayType) : ℚ :=
  if r ∈ GEN_RADS then genTargetV3 y M sd r t
  else if r ∈ IRA_RADS then iraTargetV3 y M sd r t
  else 0

/-! ### Checked (division-by-zero aware) variants

Python raises `ZeroDivisionError` on `x / 0`; the checked variants return
`none` exactly where the source would raise, and `some value` otherwise. -/

/-- Division as executed by Python: `none` models `ZeroDivisionError`. -/
def tryDiv (a b : ℚ) : Option ℚ :=
  if b = 0 then none else some (a / b)

/-- Checked share-sum loop (first GEN loop of `calculate_ytd_targets`). -/
def genShareSumV3Checked (y M : ℕ) (sd : Rad → ℕ × ℕ) (t : DayType) : Option ℚ :=
  (GEN_RADS.mapM (fun r =>
    tryDiv (radAvailV3 y M sd r t : ℚ) (genTotalWorkingDaysV3 y M t : ℚ))).map List.sum

/-- Checked GEN target of one rad (second GEN loop). -/
def genTargetV3Checked (y M : ℕ) (sd : Rad → ℕ × ℕ) (r : Rad) (t : DayType) : Option ℚ := do
  let S ← genShareSumV3Checked y M sd t
  if 0 < S then
    let lhs ← tryDiv (genTotalWorkingDaysV3 y M t : ℚ) S
    let share ← tryDiv (radAvailV3 y M sd r t : ℚ) (genTotalWorkingDaysV3 y M t : ℚ)
    pure (lhs * share)
  else
    pure 0

/-- Checked IRA share-sum loop. -/
def iraShareSumV3Checked (y M : ℕ) (sd : Rad → ℕ × ℕ) (t : DayType) : Option ℚ :=
  (IRA_RADS.mapM (fun r =>
    tryDiv (radAvailV3 y M sd r t : ℚ) (totalWorkingDaysV3 y M t : ℚ))).map List.sum

/-- Checked IRA target of one rad. -/
def iraTargetV3Checked (y M : ℕ) (sd : Rad → ℕ × ℕ) (r : Rad) (t : DayType) : Option ℚ := do
  let S ← iraShareSumV3Checked y M sd t
  if 0 < S then
    let lhs ← tryDiv (totalWorkingDaysV3 y M t : ℚ) S
    let share ← tryDiv (radAvailV3 y M sd r t : ℚ) (totalWorkingDaysV3 y M t : ℚ)
    pure (lhs * share)
  else
    pure 0

/-! ## Streamlit YTD target calculator (`calculate_ytd_targets`, lines
214-290, and `calculate_availability_fraction`, lines 161-201) -/

/-- Total non-holiday days of type `t` from Jan 1 through end of month `M`
(streamlit holiday list). -/
def totalDaysSL (y M : ℕ) (t : DayType) : ℕ :=
  (((List.range' 1 M).map (fun month =>
    ((List.range' 1 (daysInMonth y month)).filter (fun day =>
      !isHolidaySL month day && dayTypeOf y month day == t)).length)).sum)

/-- Days of type `t` on or after the rad's start date (part of the single
date walk of `calculate_availability_fraction`). -/
def radDaysSL (y M : ℕ) (sm sd : ℕ) (t : DayType) : ℕ :=
  (((List.range' 1 M).map (fun month =>
    ((List.range' 1 (daysInMonth y month)).filter (fun day =>
      !isHolidaySL month day && dayTypeOf y month day == t &&
      mdLe (sm, sd) (month, day))).length)).sum)

/-- `calculate_availability_fraction`: `0.0` if the rad starts after the
month end, `0.0` if the day-type total is zero, else the exact ratio. -/
def availFracSL (y M : ℕ) (sd : Rad → ℕ × ℕ) (r : Rad) (t : DayType) : ℚ :=
  let st := sd r
  if mdLe (M, daysInMonth y M) st && !(st == (M, daysInMonth y M)) then 0
  else if totalDaysSL y M t = 0 then 0
  else (radDaysSL y M st.1 st.2 t : ℚ) / (totalDaysSL y M t : ℚ)

/-- Checked availability fraction: both zero cases return before any
division, so the only division has a nonzero denominator. -/
def availFracSLChecked (y M : ℕ) (sd : Rad → ℕ × ℕ) (r : Rad) (t : DayType) : Option ℚ :=
  let st := sd r
  if mdLe (M, daysInMonth y M) st && !(st == (M, daysInMonth y M)) then some 0
  else if totalDaysSL y M t = 0 then some 0
  else tryDiv (radDaysSL y M st.1 st.2 t : ℚ) (totalDaysSL y M t : ℚ)

/-- `total_availability[day_type]` over a section's rads (streamlit). -/
def shareSumSL (rads : List Rad) (y M : ℕ) (sd : Rad → ℕ × ℕ) (t : DayType) : ℚ :=
  (rads.map (fun r => availFracSL y M sd r t)).sum

/-- Streamlit target of one rad of a section. -/
def targetSL (rads : List Rad) (y M : ℕ) (sd : Rad → ℕ × ℕ) (r : Rad) (t : DayType) : ℚ :=
  let S := shareSumSL rads y M sd t
  if 0 < S then ((totalDaysSL y M t : ℚ) / S) * availFracSL y M sd r t
  else 0

/-- Checked streamlit target of one rad of a section. -/
def targetSLChecked (rads : List Rad) (y M : ℕ) (sd : Rad → ℕ × ℕ) (r : Rad) (t : DayType) :
    Option ℚ := do
  let fracs ← rads.mapM (fun r2 => availFracSLChecked y M sd r2 t)
  let S := fracs.sum
  if 0 < S then
    let lhs ← tryDiv (totalDaysSL y M t : ℚ) S
    let frac ← availFracSLChecked y M sd r t
    pure (lhs * frac)
  else
    pure 0

/-! ## Helper lemmas for the target calculators -/

/-- Summing `(T / S) * share r` over the section gives back `T` whenever
the share sum `S` is positive. -/
lemma sum_scaled_shares (rads : List Rad) (share : Rad → ℚ) (T : ℚ)
    (h : 0 < (rads.map share).sum) :
    (rads.map (fun r => (T / (rads.map share).sum) * share r)).sum = T := by
  rw [List.sum_map_mul_left]
  exact div_mul_cancel₀ T (ne_of_gt h)

/-- `mapM` of checked divisions with one fixed nonzero denominator
succeeds and returns the plain quotients. -/
lemma mapM_tryDiv_eq (l : List Rad) (f : Rad → ℚ) (T : ℚ) (hT : T ≠ 0) :
    (l.mapM (fun r => tryDiv (f r) T)) = some (l.map (fun r => f r / T)) := by
  induction l with
  | nil => rfl
  | cons a l ih =>
    rw [List.mapM_cons, ih]
    simp [tryDiv, hT]

/-- The checked GEN share sum agrees with the exact one when the adjusted
total is nonzero. -/
lemma genShareSumV3Checked_eq (y M : ℕ) (sd : Rad → ℕ × ℕ) (t : DayType)
    (hT : genTotalWorkingDaysV3 y M t ≠ 0) :
    genShareSumV3Checked y M sd t = some (genShareSumV3 y M sd t) := by
  have hT' : (genTotalWorkingDaysV3 y M t : ℚ) ≠ 0 := by exact_mod_cast hT
  unfold genShareSumV3Checked
  rw [mapM_tryDiv_eq _ _ _ hT']
  rfl

/-- The checked IRA share sum agrees with the exact one when the total is
nonzero. -/
lemma iraShareSumV3Checked_eq (y M : ℕ) (sd : Rad → ℕ × ℕ) (t : DayType)
    (hT : totalWorkingDaysV3 y M t ≠ 0) :
    iraShareSumV3Checked y M sd t = some (iraShareSumV3 y M sd t) := by
  have hT' : (totalWorkingDaysV3 y M t : ℚ) ≠ 0 := by exact_mod_cast hT
  unfold iraShareSumV3Checked
  rw [mapM_tryDiv_eq _ _ _ hT']
  rfl

/-- The checked streamlit availability fraction never raises and agrees
with the exact one. -/
lemma availFracSLChecked_eq (y M : ℕ) (sd : Rad → ℕ × ℕ) (r : Rad) (t : DayType) :
    availFracSLChecked y M sd r t = some (availFracSL y M sd r t) := by
  simp only [availFracSLChecked, availFracSL]
  split_ifs with h1 h2
  · rfl
  · rfl
  · have h2' : (totalDaysSL y M t : ℚ) ≠ 0 := by exact_mod_cast h2
    simp [tryDiv, h2']

/-! ## C2: target closure -/

/-- Claim C2 (amended form).  For every year, month, start-date table and
day type: the IRA targets of `create_oncall_schedule_v3.py` and both
sections' targets of the streamlit version sum exactly to the total
non-holiday day count of that type, while the GEN targets of v3 sum to the
*adjusted* GEN total `genTotalWorkingDaysV3`, which for the weekend type is
the total count minus one (the hardcoded "AS covered 1 GEN weekend in Feb"
correction).  Each closure holds whenever the section's availability-share
sum is positive (the code's own guard). -/
theorem spec_c2_target_closure (y M : ℕ) (sd : Rad → ℕ × ℕ) (t : DayType) :
    (0 < genShareSumV3 y M sd t →
      (GEN_RADS.map (fun r => genTargetV3 y M sd r t)).sum =
        (genTotalWorkingDaysV3 y M t : ℚ))
    ∧ (0 < iraShareSumV3 y M sd t →
      (IRA_RADS.map (fun r => iraTargetV3 y M sd r t)).sum =
        (totalWorkingDaysV3 y M t : ℚ))
    ∧ (0 < shareSumSL GEN_RADS y M sd t →
      (GEN_RADS.map (fun r => targetSL GEN_RADS y M sd r t)).sum =
        (totalDaysSL y M t : ℚ))
    ∧ (0 < shareSumSL IRA_RADS y M sd t →
      (IRA_RADS.map (fun r => targetSL IRA_RADS y M sd r t)).sum =
        (totalDaysSL y M t : ℚ)) := by
  refine ⟨fun h => ?_, fun h => ?_, fun h => ?_, fun h => ?_⟩
  · simp only [genTargetV3, if_pos h]
    exact sum_scaled_shares GEN_RADS
      (fun r => (radAvailV3 y M sd r t : ℚ) / (genTotalWorkingDaysV3 y M t : ℚ)) _ h
  · simp only [iraTargetV3, if_pos h]
    exact sum_scaled_shares IRA_RADS
      (fun r => (radAvailV3 y M sd r t : ℚ) / (totalWorkingDaysV3 y M t : ℚ)) _ h
  · simp only [targetSL, if_pos h]
    exact sum_scaled_shares GEN_RADS (fun r => availFracSL y M sd r t) _ h
  · simp only [targetSL, if_pos h]
    exact sum_scaled_shares IRA_RADS (fun r => availFracSL y M sd r t) _ h

/-- Claim C2, counterexample: for January 2025 with the configured start
dates, the v3 GEN weekend targets sum to 8, but the total number of
non-holiday weekend days Jan 1 - Jan 31 is 9: the claimed closure against
the *unadjusted* total fails by exactly 1 (far beyond floating-point
tolerance). -/
theorem spec_c2_counterexample :
    (GEN_RADS.map (fun r => genTargetV3 2025 1 START_DATES r .weekend)).sum ≠
      (totalWorkingDaysV3 2025 1 .weekend : ℚ) := by
  with_unfolding_all decide

/-- Witness for the amended C2 at a concrete input (January 2025,
Thursday type, configured start dates). -/
theorem spec_c2_target_closure_witness :
    0 < genShareSumV3 2025 1 START_DATES .thu ∧
    (GEN_RADS.map (fun r => genTargetV3 2025 1 START_DATES r .thu)).sum =
      (genTotalWorkingDaysV3 2025 1 .thu : ℚ) :=
  ⟨by with_unfolding_all decide,
    (spec_c2_target_closure 2025 1 START_DATES .thu).1 (by with_unfolding_all decide)⟩

/-! ## C7: divide-by-zero guard in the target calculators -/

/-- Claim C7.  For any start-date table: as long as the day-type totals
used as denominators are nonzero (true for every real processing month:
they count at least all of January), the whole v3 target computation
executes without any division by zero, and whenever a section's summed
availability share is zero every rad of that section receives target `0`.
The streamlit version needs no totals hypothesis at all: its fraction
helper returns `0.0` before dividing whenever the denominator is zero. -/
theorem spec_c7_div_by_zero_guard (y M : ℕ) (sd : Rad → ℕ × ℕ)
    (hgen : ∀ t, genTotalWorkingDaysV3 y M t ≠ 0)
    (htot : ∀ t, totalWorkingDaysV3 y M t ≠ 0) :
    (∀ r t, ∃ q, genTargetV3Checked y M sd r t = some q ∧
      (genShareSumV3 y M sd t = 0 → q = 0))
    ∧ (∀ r t, ∃ q, iraTargetV3Checked y M sd r t = some q ∧
      (iraShareSumV3 y M sd t = 0 → q = 0))
    ∧ (∀ (rads : List Rad) (r : Rad) (t : DayType),
      ∃ q, targetSLChecked rads y M sd r t = some q ∧
        (shareSumSL rads y M sd t = 0 → q = 0)) := by
  refine ⟨fun r t => ?_, fun r t => ?_, fun rads r t => ?_⟩
  · have hT : (genTotalWorkingDaysV3 y M t : ℚ) ≠ 0 := by exact_mod_cast hgen t
    by_cases hS : 0 < genShareSumV3 y M sd t
    · refine ⟨(genTotalWorkingDaysV3 y M t : ℚ) / genShareSumV3 y M sd t *
        ((radAvailV3 y M sd r t : ℚ) / (genTotalWorkingDaysV3 y M t : ℚ)), ?_,
        fun h0 => absurd (h0 ▸ hS) (lt_irrefl 0)⟩
      unfold genTargetV3Checked
      rw [genShareSumV3Checked_eq y M sd t (hgen t)]
      simp [hS, tryDiv, ne_of_gt hS, hT]
    · refine ⟨0, ?_, fun _ => rfl⟩
      unfold genTargetV3Checked
      rw [genShareSumV3Checked_eq y M sd t (hgen t)]
      simp [hS]
  · have hT : (totalWorkingDaysV3 y M t : ℚ) ≠ 0 := by exact_mod_cast htot t
    by_cases hS : 0 < iraShareSumV3 y M sd t
    · refine ⟨(totalWorkingDaysV3 y M t : ℚ) / iraShareSumV3 y M sd t *
        ((radAvailV3 y M sd r t : ℚ) / (totalWorkingDaysV3 y M t : ℚ)), ?_,
        fun h0 => absurd (h0 ▸ hS) (lt_irrefl 0)⟩
      unfold iraTargetV3Checked
      rw [iraShareSumV3Checked_eq y M sd t (htot t)]
      simp [hS, tryDiv, ne_of_gt hS, hT]
    · refine ⟨0, ?_, fun _ => rfl⟩
      unfold iraTargetV3Checked
      rw [iraShareSumV3Checked_eq y M sd t (htot t)]
      simp [hS]
  · have hmap : rads.mapM (fun r2 => availFracSLChecked y M sd r2 t) =
        some (rads.map (fun r2 => availFracSL y M sd r2 t)) := by
      induction rads with
      | nil => rfl
      | cons a l ih =>
        rw [List.mapM_cons, ih, availFracSLChecked_eq]
        simp
    have hsum : (rads.map (fun r2 => availFracSL y M sd r2 t)).sum =
        shareSumSL rads y M sd t := rfl
    by_cases hS : 0 < shareSumSL rads y M sd t
    · refine ⟨(totalDaysSL y M t : ℚ) / shareSumSL rads y M sd t *
        availFracSL y M sd r t, ?_, fun h0 => absurd (h0 ▸ hS) (lt_irrefl 0)⟩
      unfold targetSLChecked
      rw [hmap]
      simp only [Option.pure_def, Option.bind_eq_bind, Option.some_bind, hsum]
      simp [hS, tryDiv, ne_of_gt hS, availFracSLChecked_eq]
    · refine ⟨0, ?_, fun _ => rfl⟩
      unfold targetSLChecked
      rw [hmap]
      simp only [Option.pure_def, Option.bind_eq_bind, Option.some_bind, hsum]
      simp [hS]

/-- A start-date table putting every rad's activation after any
January-ending window: it makes every availability share vanish. -/
def sdLate : Rad → ℕ × ℕ := fun _ => (12, 31)

/-- Witness for C7 at a concrete input: January 2025 with the all-late
start-date table, where the GEN share sum is actually zero and the
computation still succeeds with target `0`. -/
theorem spec_c7_div_by_zero_guard_witness :
    (∀ t, genTotalWorkingDaysV3 2025 1 t ≠ 0) ∧
    (∀ t, totalWorkingDaysV3 2025 1 t ≠ 0) ∧
    genShareSumV3 2025 1 sdLate .thu = 0 ∧
    (∃ q, genTargetV3Checked 2025 1 sdLate "MB" .thu = some q ∧
      (genShareSumV3 2025 1 sdLate .thu = 0 → q = 0)) := by
  refine ⟨?_, ?_, by with_unfolding_all decide, ?_⟩
  · intro t; cases t <;> decide
  · intro t; cases t <;> decide
  · exact (spec_c7_div_by_zero_guard 2025 1 sdLate
      (by intro t; cases t <;> decide) (by intro t; cases t <;> decide)).1 "MB" .thu

/-! ## Scheduler state (`OnCallScheduler.__init__`)

The spreadsheet-derived and user-supplied inputs of a run are bundled in
`Config`; the mutable per-run data (`self.assignments`, the counters, and
the pass-local accumulators `ira_weekend_count`, `last_weekend_rad`,
`mri_only_assignments`) form `SchedSt`. -/

/-- The three coverage sections. -/
inductive Sec
  | GEN
  | IRA
  | MRI
deriving DecidableEq, Repr

/-- Configured monthly caps of `create_oncall_schedule_v3.py`. -/
def MAX_MONTHLY_GEN : ℕ := 7

def MAX_MONTHLY_IRA : ℕ := 12

def MAX_MONTHLY_MRI : ℕ := 8

def MAX_MONTHLY_WEEKENDS_GEN : ℕ := 3

def CONSECUTIVE_WEEKEND_PENALTY : ℚ := 100

def SOFT_CONSTRAINT_PENALTY : ℚ := 300

/-- Per-run input snapshot: month under processing, locked `X` marks,
vacation days (blue cells), the hard (`special_requests_off`) and soft
(`soft_constraints_off`) user constraints, and the cached YTD totals. -/
structure Config where
  year : ℕ
  month : ℕ
  locked : Sec → ℕ → Option Rad
  vacation : Rad → ℕ → Bool
  special : Rad → ℕ → Bool
  soft : Rad → ℕ → Bool
  ytdCache : Rad → DayType → ℚ

/-- `self.days_in_month`. -/
def Config.days (c : Config) : ℕ := daysInMonth c.year c.month

/-- `self.get_day_type(day)`. -/
def Config.dayType (c : Config) (d : ℕ) : DayType := dayTypeOf c.year c.month d

/-- `self.ytd_targets`, computed once per run in `__init__`. -/
def Config.targets (c : Config) (r : Rad) (t : DayType) : ℚ :=
  ytdTargetsV3 c.year c.month START_DATES r t

/-- Mutable scheduling state.  Assignment dicts are day-indexed partial
maps; the three pass-local Python variables are carried here so that every
assignment step is a total function on one state type. -/
structure SchedSt where
  assign : Sec → ℕ → Option Rad
  counts : Rad → DayType → ℕ
  genTotal : Rad → ℕ
  iraTotal : Rad → ℕ
  mriTotal : Rad → ℕ
  iraWeekendCount : Rad → ℕ
  lastWeekendRad : Option Rad
  mriOnly : Rad → ℕ

/-- The state at the start of `generate_schedule`: empty assignment maps
and all-zero counters (`defaultdict(int)`). -/
def initSt : SchedSt where
  assign := fun _ _ => none
  counts := fun _ _ => 0
  genTotal := fun _ => 0
  iraTotal := fun _ => 0
  mriTotal := fun _ => 0
  iraWeekendCount := fun _ => 0
  lastWeekendRad := none
  mriOnly := fun _ => 0

/-- GEN weekend days already assigned to `rad` (the scan over
`self.assignments['GEN'].items()` inside `is_available`; all assigned days
lie in `1..days_in_month`). -/
def genWeekendCount (c : Config) (s : SchedSt) (rad : Rad) : ℕ :=
  ((List.range' 1 c.days).filter (fun d =>
    s.assign .GEN d == some rad && c.dayType d == DayType.weekend)).length

/-- `is_available(rad, day, section)` (lines 531-570): hard constraints
only.  Note that `self.soft_constraints_off` is never consulted. -/
def is_available (c : Config) (s : SchedSt) (rad : Rad) (day : ℕ) (sec : Sec) : Bool :=
  if c.vacation rad day then false
  else if c.vacation rad (day + 1) then false
  else if c.special rad day then false
  else if sec = .GEN ∧ rad ∉ GEN_RADS_WITH_IRA then false
  else if sec = .IRA ∧ rad ∉ IRA_RADS then false
  else if sec = .MRI ∧ rad ∉ MRI_RADS then false
  else if sec = .GEN ∧ c.dayType day = .weekend ∧
      MAX_MONTHLY_WEEKENDS_GEN ≤ genWeekendCount c s rad then false
  else if sec = .GEN ∧ MAX_MONTHLY_GEN ≤ s.genTotal rad then false
  else if sec = .IRA ∧ MAX_MONTHLY_IRA ≤ s.iraTotal rad then false
  else if sec = .MRI ∧ MAX_MONTHLY_MRI ≤ s.mriTotal rad then false
  else true

/-- `calculate_workload_score(rad, day, day_type, section)` (lines
572-621), exact over `ℚ`. -/
def calculate_workload_score (c : Config) (s : SchedSt) (rad : Rad) (day : ℕ)
    (dt : DayType) (sec : Sec) : ℚ :=
  let target := c.targets rad dt
  let projected := c.ytdCache rad dt + (s.counts rad dt : ℚ)
  let score0 := (projected - target) * 10
  let score1 := score0 + (if c.soft rad day then SOFT_CONSTRAINT_PENALTY else 0)
  let score2 := score1 + (if sec = .GEN ∧ rad ∈ IRA_RADS then 500 else 0)
  let score3 :=
    if dt = .weekend then
      score2 * 3 + (if 2 ≤ s.counts rad dt then 50 else 0)
    else score2
  let score4 := score3 +
    (if sec = .GEN ∧ dt = .weekend then
      ((([5, 6, 7] : List ℕ).filter (fun k =>
        k < day && c.dayType (day - k) == DayType.weekend &&
        s.assign .GEN (day - k) == some rad)).length : ℚ) * CONSECUTIVE_WEEKEND_PENALTY
    else 0)
  score4 + (if sec = .GEN ∧ 1 < day ∧ s.assign .GEN (day - 1) = some rad then 200 else 0)

/-- Python's `min(candidates, key=score)`: walk the list, replacing the
current best only on a strictly smaller score (so the earliest minimum
wins); `none` on an empty list (where Python would raise). -/
def pyMin {α : Type} (l : List α) (f : α → ℚ) : Option α :=
  l.foldl (fun acc r =>
    match acc with
    | none => some r
    | some b => if f r < f b then some r else acc) none

/-- Record one assignment: set the day in the section map, bump the
per-day-type monthly count `dt`, and bump the section's monthly total by
one (each code site does exactly these three mutations per assigned day). -/
def recordAt (sec : Sec) (day : ℕ) (rad : Rad) (dt : DayType) (s : SchedSt) : SchedSt :=
  { s with
    assign := fun sc d => if sc = sec ∧ d = day then some rad else s.assign sc d
    counts := fun r t => if r = rad ∧ t = dt then s.counts r t + 1 else s.counts r t
    genTotal := fun r => if sec = .GEN ∧ r = rad then s.genTotal r + 1 else s.genTotal r
    iraTotal := fun r => if sec = .IRA ∧ r = rad then s.iraTotal r + 1 else s.iraTotal r
    mriTotal := fun r => if sec = .MRI ∧ r = rad then s.mriTotal r + 1 else s.mriTotal r }

/-! ## Pass 1: `assign_gen_thursday_saturday` (lines 623-680) -/

/-- One loop iteration of the GEN Thursday-Saturday pass. -/
def genPairStep (c : Config) (s : SchedSt) (day : ℕ) : SchedSt :=
  if c.dayType day ≠ .thu then s
  else
    let satDay := day + 2
    if c.days < satDay then s
    else if pyWeekday c.year c.month satDay ≠ 5 then s
    else
      match c.locked .GEN day with
      | some rad =>
        recordAt .GEN satDay rad .weekend (recordAt .GEN day rad .thu s)
      | none =>
        let primary := GEN_RADS.filter (fun r =>
          is_available c s r day .GEN && is_available c s r satDay .GEN)
        let avail :=
          if primary.isEmpty then
            GEN_RADS_WITH_IRA.filter (fun r =>
              is_available c s r day .GEN && is_available c s r satDay .GEN)
          else primary
        match pyMin avail (fun r =>
          calculate_workload_score c s r day .thu .GEN +
          calculate_workload_score c s r satDay .weekend .GEN) with
        | none => s
        | some best =>
          recordAt .GEN satDay best .weekend (recordAt .GEN day best .thu s)

/-! ## Pass 2: `assign_ira_triplets` (lines 682-764) -/

/-- One loop iteration of the IRA Thursday-Friday-Saturday pass.  The
pass-local `ira_weekend_count` and `last_weekend_rad` live in the state
(zero / `None` at run start, touched by no other pass). -/
def iraTripletStep (c : Config) (s : SchedSt) (day : ℕ) : SchedSt :=
  if c.dayType day ≠ .thu then s
  else
    let friDay := day + 1
    let satDay := day + 2
    if c.days < satDay then s
    else
      match c.locked .IRA day with
      | some rad =>
        let s1 := recordAt .IRA satDay rad .weekend
          (recordAt .IRA friDay rad .weekend (recordAt .IRA day rad .thu s))
        { s1 with
          iraWeekendCount := fun r =>
            if r = rad then s.iraWeekendCount r + 1 else s.iraWeekendCount r
          lastWeekendRad := some rad }
      | none =>
        let avail := IRA_RADS.filter (fun r =>
          is_available c s r day .IRA && is_available c s r friDay .IRA &&
          is_available c s r satDay .IRA)
        match pyMin avail (fun r =>
          let base := calculate_workload_score c s r day .thu .IRA +
            calculate_workload_score c s r friDay .weekend .IRA +
            calculate_workload_score c s r satDay .weekend .IRA
          let consecutivePenalty : ℚ := if s.lastWeekendRad = some r then 1500 else 0
          let weekendPenalty : ℚ := (s.iraWeekendCount r : ℚ) * 500 +
            (if 2 ≤ s.iraWeekendCount r then 2000 else 0)
          base + consecutivePenalty + weekendPenalty) with
        | none => s
        | some best =>
          let s1 := recordAt .IRA satDay best .weekend
            (recordAt .IRA friDay best .weekend (recordAt .IRA day best .thu s))
          { s1 with
            iraWeekendCount := fun r =>
              if r = best then s.iraWeekendCount r + 1 else s.iraWeekendCount r
            lastWeekendRad := some best }

/-! ## Pass 3: `assign_remaining_days` (lines 766-856) -/

/-- One loop iteration of the remaining-days pass for a section with its
`eligible_rads` pool.  The final `else` branch is the constraint-relaxing
fallback (`for rad in eligible_rads` keeping only vacation, pre-vacation
and section membership). -/
def remainingStep (c : Config) (sec : Sec) (eligible : List Rad) (s : SchedSt)
    (day : ℕ) : SchedSt :=
  if s.assign sec day ≠ none then s
  else
    match c.locked sec day with
    | some rad => recordAt sec day rad (c.dayType day) s
    | none =>
      let dt := c.dayType day
      let avail :=
        if sec = .GEN then
          let primary := GEN_RADS.filter (fun r => is_available c s r day sec)
          if primary.isEmpty then eligible.filter (fun r => is_available c s r day sec)
          else primary
        else eligible.filter (fun r => is_available c s r day sec)
      let avail2 :=
        if avail.isEmpty then
          match eligible.find? (fun r =>
            !c.vacation r day && !c.vacation r (day + 1) &&
            (sec ≠ .GEN || GEN_RADS_WITH_IRA.contains r) &&
            (sec ≠ .IRA || IRA_RADS.contains r) &&
            (sec ≠ .MRI || MRI_RADS.contains r)) with
          | some r => [r]
          | none => []
        else avail
      match pyMin avail2 (fun r => calculate_workload_score c s r day dt sec) with
      | none => s
      | some best => recordAt sec day best dt s

/-! ## Pass 4: `assign_ira_remaining_weekdays` (lines 858-961)

The source first loops over the `remaining_days` list (days unassigned
when the pass starts), then recomputes the still-`missing_days` and loops
again with the all-`IRA_RADS` fallback.  Since each iteration assigns only
its own day, both loops are equivalent to sweeps over `1..days_in_month`
that skip already-assigned days, which is how they are modelled. -/

/-- One iteration of an `assign_ira_remaining_weekdays` loop;
`fallbackAll` distinguishes the second (missing-days) loop, which falls
back to the full `IRA_RADS` pool when nobody is available. -/
def iraWeekdayStep (fallbackAll : Bool) (c : Config) (s : SchedSt) (day : ℕ) : SchedSt :=
  if s.assign .IRA day ≠ none then s
  else
    match c.locked .IRA day with
    | some rad => recordAt .IRA day rad (c.dayType day) s
    | none =>
      let dt := c.dayType day
      let avail := IRA_RADS.filter (fun r => is_available c s r day .IRA)
      let avail2 := if avail.isEmpty then (if fallbackAll then IRA_RADS else []) else avail
      match pyMin avail2 (fun r =>
        calculate_workload_score c s r day dt .IRA +
        (if r ∈ MRI_RADS then (-200 : ℚ) else 0)) with
      | none => s
      | some best => recordAt .IRA day best dt s

/-! ## Pass 5: `assign_mri_optimized` (lines 964-1091) -/

/-- One loop iteration of the optimized MRI pass.  `mri_only_assignments`
lives in the state (`mriOnly`), zero at run start and touched only here. -/
def mriStep (c : Config) (s : SchedSt) (day : ℕ) : SchedSt :=
  if s.assign .MRI day ≠ none then s
  else
    match c.locked .MRI day with
    | some rad => recordAt .MRI day rad (c.dayType day) s
    | none =>
      let genRad := s.assign .GEN day
      let iraRad := s.assign .IRA day
      let dt := c.dayType day
      let strat1 : Option Rad :=
        match genRad with
        | some g =>
          if iraRad ≠ some g ∧ g ∈ MRI_RADS ∧ is_available c s g day .MRI then some g
          else none
        | none => none
      match strat1 with
      | some g => recordAt .MRI day g dt s
      | none =>
        let strat2 : Option Rad :=
          match iraRad with
          | some i => if i ∈ MRI_RADS ∧ is_available c s i day .MRI then some i else none
          | none => none
        match strat2 with
        | some i => recordAt .MRI day i dt s
        | none =>
          let genMriAvail := GEN_RADS.filter (fun r =>
            MRI_RADS.contains r && genRad != some r && iraRad != some r &&
            is_available c s r day .MRI)
          match pyMin genMriAvail (fun r =>
            calculate_workload_score c s r day dt .MRI + (s.mriOnly r : ℚ) * 400) with
          | some best =>
            { recordAt .MRI day best dt s with
              mriOnly := fun r => if r = best then s.mriOnly r + 1 else s.mriOnly r }
          | none =>
            let iraMriAvail := IRA_RADS.filter (fun r =>
              MRI_RADS.contains r && genRad != some r && iraRad != some r &&
              is_available c s r day .MRI)
            match pyMin iraMriAvail (fun r =>
              calculate_workload_score c s r day dt .MRI) with
            | some best => recordAt .MRI day best dt s
            | none =>
              let availAll := MRI_RADS.filter (fun r => is_available c s r day .MRI)
              match pyMin availAll (fun r =>
                calculate_workload_score c s r day dt .MRI) with
              | some best => recordAt .MRI day best dt s
              | none => s

/-! ## The full run (`generate_schedule`, lines 1513-1574) -/

/-- The per-day step functions of the whole run, in execution order:
GEN Thu+Sat pairs, IRA triplets, remaining GEN days, the two IRA weekday
loops, then MRI.  Each sweep walks days `1..days_in_month` in order. -/
def pipelineSteps (c : Config) : List (SchedSt → SchedSt) :=
  ((List.range' 1 c.days).map (fun d s => genPairStep c s d)) ++
  ((List.range' 1 c.days).map (fun d s => iraTripletStep c s d)) ++
  ((List.range' 1 c.days).map (fun d s => remainingStep c .GEN GEN_RADS_WITH_IRA s d)) ++
  ((List.range' 1 c.days).map (fun d s => iraWeekdayStep false c s d)) ++
  ((List.range' 1 c.days).map (fun d s => iraWeekdayStep true c s d)) ++
  ((List.range' 1 c.days).map (fun d s => mriStep c s d))

/-- `get_user_preferences` step 5: the day after each vacation day is
added to `soft_constraints_off` before assignment starts. -/
def enrichSoft (c : Config) : Config :=
  { c with soft := fun r d =>
      c.soft r d || (2 ≤ d && d ≤ c.days && c.vacation r (d - 1)) }

/-- The assignment part of `generate_schedule`: all five passes run in
order from the empty state. -/
def runSchedule (c : Config) : SchedSt :=
  (pipelineSteps (enrichSoft c)).foldl (fun s f => f s) initSt

/-- The state after the first `k` individual per-day assignment steps of
the run ("every point during schedule generation"). -/
def stateAt (c : Config) (k : ℕ) : SchedSt :=
  ((pipelineSteps (enrichSoft c)).take k).foldl (fun s f => f s) initSt

/-! ## The summary constraint check (`print_summary`, lines 1362-1456) -/

/-- Entries of the `violations` list built by `print_summary`. -/
inductive Violation
  | consecDays (r : Rad) (d : ℕ)
  | consecWeekends (r : Rad) (d1 d2 : ℕ)
  | vacationAssigned (sec : Sec) (r : Rad) (d : ℕ)
  | preVacationAssigned (sec : Sec) (r : Rad) (d : ℕ)
  | overload (r : Rad) (d : ℕ)
  | genPairing (d : ℕ) (thuRad satRad : Rad)
  | iraTripletFri (d : ℕ) (thuRad friRad : Rad)
  | iraTripletSat (d : ℕ) (thuRad satRad : Rad)
  | genWeekendLimit (r : Rad) (n : ℕ)
  | genCap (r : Rad) (n : ℕ)
  | iraCap (r : Rad) (n : ℕ)
  | mriCap (r : Rad) (n : ℕ)
  | coverageGap (sec : Sec) (d : ℕ)
deriving DecidableEq, Repr

/-- Vacation / pre-vacation violation entries for one rad and one of their
vacation days (inner body of the loop at lines 1380-1396). -/
def vacationEntries (s : SchedSt) (r : Rad) (day : ℕ) : List Violation :=
  (if s.assign .GEN day = some r then [Violation.vacationAssigned .GEN r day] else []) ++
  (if s.assign .IRA day = some r then [Violation.vacationAssigned .IRA r day] else []) ++
  (if s.assign .MRI day = some r then [Violation.vacationAssigned .MRI r day] else []) ++
  (if 1 < day then
    (if s.assign .GEN (day - 1) = some r then
      [Violation.preVacationAssigned .GEN r (day - 1)] else []) ++
    (if s.assign .IRA (day - 1) = some r then
      [Violation.preVacationAssigned .IRA r (day - 1)] else []) ++
    (if s.assign .MRI (day - 1) = some r then
      [Violation.preVacationAssigned .MRI r (day - 1)] else [])
  else [])

/-- The `violations` list of `print_summary`, in source order.  The
vacation dict iterates over the rads of the three pools and their in-month
vacation days. -/
def violationsOf (c : Config) (s : SchedSt) : List Violation :=
  -- GEN consecutive days
  ((List.range' 1 (c.days - 1)).flatMap (fun d =>
    match s.assign .GEN d, s.assign .GEN (d + 1) with
    | some a, some b => if a = b then [Violation.consecDays a d] else []
    | _, _ => [])) ++
  -- GEN consecutive weekends
  ((List.range' 1 (c.days - 7)).flatMap (fun d =>
    if c.dayType d = .weekend then
      match s.assign .GEN d with
      | some rad =>
        (List.range' (d + 5) (min (d + 8) (c.days + 1) - (d + 5))).flatMap (fun fd =>
          if c.dayType fd = .weekend ∧ s.assign .GEN fd = some rad then
            [Violation.consecWeekends rad d fd] else [])
      | none => []
    else [])) ++
  -- vacation and pre-vacation violations
  (ALL_RADS.flatMap (fun r =>
    (List.range' 1 c.days).flatMap (fun d =>
      if c.vacation r d then vacationEntries s r d else []))) ++
  -- GEN+IRA overload
  ((List.range' 1 c.days).flatMap (fun d =>
    match s.assign .GEN d, s.assign .IRA d with
    | some g, some i => if g = i then [Violation.overload g d] else []
    | _, _ => [])) ++
  -- GEN Thursday-Saturday pairing
  ((List.range' 1 c.days).flatMap (fun d =>
    if c.dayType d = .thu ∧ d + 2 ≤ c.days then
      match s.assign .GEN d, s.assign .GEN (d + 2) with
      | some a, some b => if a ≠ b then [Violation.genPairing d a b] else []
      | _, _ => []
    else [])) ++
  -- IRA triplet equality
  ((List.range' 1 c.days).flatMap (fun d =>
    if c.dayType d = .thu ∧ d + 2 ≤ c.days then
      (match s.assign .IRA d, s.assign .IRA (d + 1) with
       | some a, some b => if a ≠ b then [Violation.iraTripletFri d a b] else []
       | _, _ => []) ++
      (match s.assign .IRA d, s.assign .IRA (d + 2) with
       | some a, some b => if a ≠ b then [Violation.iraTripletSat d a b] else []
       | _, _ => [])
    else [])) ++
  -- GEN weekend limit (recounted from the assignment map)
  (GEN_RADS.flatMap (fun r =>
    if MAX_MONTHLY_WEEKENDS_GEN < genWeekendCount c s r then
      [Violation.genWeekendLimit r (genWeekendCount c s r)] else [])) ++
  -- monthly totals against the caps
  (GEN_RADS_WITH_IRA.flatMap (fun r =>
    if MAX_MONTHLY_GEN < s.genTotal r then [Violation.genCap r (s.genTotal r)] else [])) ++
  (IRA_RADS.flatMap (fun r =>
    if MAX_MONTHLY_IRA < s.iraTotal r then [Violation.iraCap r (s.iraTotal r)] else [])) ++
  (MRI_RADS.flatMap (fun r =>
    if MAX_MONTHLY_MRI < s.mriTotal r then [Violation.mriCap r (s.mriTotal r)] else [])) ++
  -- coverage gaps
  ((List.range' 1 c.days).flatMap (fun d =>
    (if s.assign .GEN d = none then [Violation.coverageGap .GEN d] else []) ++
    (if s.assign .IRA d = none then [Violation.coverageGap .IRA d] else []) ++
    (if s.assign .MRI d = none then [Violation.coverageGap .MRI d] else [])))

/-! ## C6: characterisation of `is_available` -/

set_option maxHeartbeats 1000000 in
/-- Claim C6.  `is_available(rad, day, section)` returns `False` exactly
when the day (or the next day) is a vacation day, the day is hard-blocked,
the rad is outside the section's pool, or a monthly cap is already reached
(the GEN weekend cap counted from the GEN assignment map for weekend days,
or the section's monthly total at its max); and its value never depends on
the soft-constraint set. -/
theorem spec_c6_is_available_iff (c : Config) (s : SchedSt) (r : Rad) (d : ℕ) (sec : Sec) :
    (is_available c s r d sec = false ↔
      (c.vacation r d = true ∨ c.vacation r (d + 1) = true ∨ c.special r d = true ∨
       (sec = .GEN ∧ r ∉ GEN_RADS_WITH_IRA) ∨
       (sec = .IRA ∧ r ∉ IRA_RADS) ∨
       (sec = .MRI ∧ r ∉ MRI_RADS) ∨
       (sec = .GEN ∧ c.dayType d = .weekend ∧
         MAX_MONTHLY_WEEKENDS_GEN ≤ genWeekendCount c s r) ∨
       (sec = .GEN ∧ MAX_MONTHLY_GEN ≤ s.genTotal r) ∨
       (sec = .IRA ∧ MAX_MONTHLY_IRA ≤ s.iraTotal r) ∨
       (sec = .MRI ∧ MAX_MONTHLY_MRI ≤ s.mriTotal r)))
    ∧ (∀ soft2, is_available { c with soft := soft2 } s r d sec = is_available c s r d sec) := by
  constructor
  · unfold is_available
    split_ifs with h1 h2 h3 h4 h5 h6 h7 h8 h9 h10
    · exact iff_of_true rfl (Or.inl h1)
    · exact iff_of_true rfl (Or.inr (Or.inl h2))
    · exact iff_of_true rfl (Or.inr (Or.inr (Or.inl h3)))
    · exact iff_of_true rfl (Or.inr (Or.inr (Or.inr (Or.inl h4))))
    · exact iff_of_true rfl (Or.inr (Or.inr (Or.inr (Or.inr (Or.inl h5)))))
    · exact iff_of_true rfl (Or.inr (Or.inr (Or.inr (Or.inr (Or.inr (Or.inl h6))))))
    · exact iff_of_true rfl
        (Or.inr (Or.inr (Or.inr (Or.inr (Or.inr (Or.inr (Or.inl h7)))))))
    · exact iff_of_true rfl
        (Or.inr (Or.inr (Or.inr (Or.inr (Or.inr (Or.inr (Or.inr (Or.inl h8))))))))
    · exact iff_of_true rfl
        (Or.inr (Or.inr (Or.inr (Or.inr (Or.inr (Or.inr (Or.inr (Or.inr (Or.inl h9)))))))))
    · exact iff_of_true rfl
        (Or.inr (Or.inr (Or.inr (Or.inr (Or.inr (Or.inr (Or.inr (Or.inr (Or.inr h10)))))))))
    · refine iff_of_false (by simp) ?_
      rintro (h | h | h | h | h | h | h | h | h | h)
      exacts [h1 h, h2 h, h3 h, h4 h, h5 h, h6 h, h7 h, h8 h, h9 h, h10 h]
  · intro soft2
    cases c
    rfl

/-! ## Membership lemmas for the summary violations list

`violationsOf` is eleven appended segments; the lemmas below land an entry
in its segment (appends associate to the right). -/

lemma mem_violations_of_vacation (c : Config) (s : SchedSt) (r : Rad) (d : ℕ)
    (hr : r ∈ ALL_RADS) (hd1 : 1 ≤ d) (hd2 : d ≤ c.days) (hv : c.vacation r d = true)
    (v : Violation) (hm : v ∈ vacationEntries s r d) :
    v ∈ violationsOf c s := by
  unfold violationsOf
  refine List.mem_append_left _ (List.mem_append_left _ (List.mem_append_left _
    (List.mem_append_left _ (List.mem_append_left _ (List.mem_append_left _
    (List.mem_append_left _ (List.mem_append_left _ (List.mem_append_right _ ?_))))))))
  refine List.mem_flatMap.2 ⟨r, hr, ?_⟩
  refine List.mem_flatMap.2 ⟨d, ?_, ?_⟩
  · rw [List.mem_range'_1]
    omega
  · rw [if_pos hv]
    exact hm

lemma mem_violations_of_genPairing (c : Config) (s : SchedSt) (d : ℕ) (a b : Rad)
    (hd1 : 1 ≤ d) (hthu : c.dayType d = .thu) (hd2 : d + 2 ≤ c.days)
    (ha : s.assign .GEN d = some a) (hb : s.assign .GEN (d + 2) = some b) (hne : a ≠ b) :
    Violation.genPairing d a b ∈ violationsOf c s := by
  unfold violationsOf
  refine List.mem_append_left _ (List.mem_append_left _ (List.mem_append_left _
    (List.mem_append_left _ (List.mem_append_left _ (List.mem_append_left _
    (List.mem_append_right _ ?_))))))
  refine List.mem_flatMap.2 ⟨d, ?_, ?_⟩
  · rw [List.mem_range'_1]
    omega
  · rw [if_pos ⟨hthu, hd2⟩, ha, hb]
    show Violation.genPairing d a b ∈
      (if a ≠ b then [Violation.genPairing d a b] else [])
    rw [if_pos hne]
    exact List.mem_singleton.2 rfl

lemma mem_violations_of_coverageGap (c : Config) (s : SchedSt) (sec : Sec) (d : ℕ)
    (hd1 : 1 ≤ d) (hd2 : d ≤ c.days) (hgap : s.assign sec d = none) :
    Violation.coverageGap sec d ∈ violationsOf c s := by
  unfold violationsOf
  refine List.mem_append_right _ ?_
  refine List.mem_flatMap.2 ⟨d, ?_, ?_⟩
  · rw [List.mem_range'_1]
    omega
  · cases sec
    · rw [if_pos hgap]
      exact List.mem_append_left _ (List.mem_append_left _ (List.mem_singleton.2 rfl))
    · rw [if_pos hgap]
      exact List.mem_append_left _ (List.mem_append_right _ (List.mem_singleton.2 rfl))
    · rw [if_pos hgap]
      exact List.mem_append_right _ (List.mem_singleton.2 rfl)

lemma mem_violations_of_genWeekendLimit (c : Config) (s : SchedSt) (r : Rad)
    (hr : r ∈ GEN_RADS) (hcap : MAX_MONTHLY_WEEKENDS_GEN < genWeekendCount c s r) :
    Violation.genWeekendLimit r (genWeekendCount c s r) ∈ violationsOf c s := by
  unfold violationsOf
  refine List.mem_append_left _ (List.mem_append_left _ (List.mem_append_left _
    (List.mem_append_left _ (List.mem_append_right _ ?_))))
  exact List.mem_flatMap.2 ⟨r, hr, by rw [if_pos hcap]; exact List.mem_singleton.2 rfl⟩

lemma mem_violations_of_genCap (c : Config) (s : SchedSt) (r : Rad)
    (hr : r ∈ GEN_RADS_WITH_IRA) (hcap : MAX_MONTHLY_GEN < s.genTotal r) :
    Violation.genCap r (s.genTotal r) ∈ violationsOf c s := by
  unfold violationsOf
  refine List.mem_append_left _ (List.mem_append_left _ (List.mem_append_left _
    (List.mem_append_right _ ?_)))
  exact List.mem_flatMap.2 ⟨r, hr, by rw [if_pos hcap]; exact List.mem_singleton.2 rfl⟩

lemma mem_violations_of_iraCap (c : Config) (s : SchedSt) (r : Rad)
    (hr : r ∈ IRA_RADS) (hcap : MAX_MONTHLY_IRA < s.iraTotal r) :
    Violation.iraCap r (s.iraTotal r) ∈ violationsOf c s := by
  unfold violationsOf
  refine List.mem_append_left _ (List.mem_append_left _ (List.mem_append_right _ ?_))
  exact List.mem_flatMap.2 ⟨r, hr, by rw [if_pos hcap]; exact List.mem_singleton.2 rfl⟩

lemma mem_violations_of_mriCap (c : Config) (s : SchedSt) (r : Rad)
    (hr : r ∈ MRI_RADS) (hcap : MAX_MONTHLY_MRI < s.mriTotal r) :
    Violation.mriCap r (s.mriTotal r) ∈ violationsOf c s := by
  unfold violationsOf
  refine List.mem_append_left _ (List.mem_append_right _ ?_)
  exact List.mem_flatMap.2 ⟨r, hr, by rw [if_pos hcap]; exact List.mem_singleton.2 rfl⟩

/-! ## C4: GEN Thursday-Saturday pairing invariant -/

/-- Claim C4.  For every GEN Thursday whose paired Saturday lies in the
month, either the two final GEN assignments agree or the summary report
contains the pairing-conflict violation for that pair: `print_summary`
scans every such Thursday and records exactly the disagreeing pairs. -/
theorem spec_c4_pairing_or_reported (c : Config) (s : SchedSt) (d : ℕ) (a b : Rad)
    (hd1 : 1 ≤ d) (hthu : c.dayType d = .thu) (hd2 : d + 2 ≤ c.days)
    (ha : s.assign .GEN d = some a) (hb : s.assign .GEN (d + 2) = some b) :
    a = b ∨ Violation.genPairing d a b ∈ violationsOf c s := by
  by_cases h : a = b
  · exact Or.inl h
  · exact Or.inr (mem_violations_of_genPairing c s d a b hd1 hthu hd2 ha hb h)

/-- A minimal no-constraints January 2025 configuration used by several
witnesses. -/
def cfgPairW : Config where
  year := 2025
  month := 1
  locked := fun _ _ => none
  vacation := fun _ _ => false
  special := fun _ _ => false
  soft := fun _ _ => false
  ytdCache := fun _ _ => 0

/-- A state assigning different rads to the Thursday-Saturday pair (2, 4)
of January 2025. -/
def stPairW : SchedSt :=
  { initSt with assign := fun sec d =>
      if sec = .GEN ∧ d = 2 then some "MB"
      else if sec = .GEN ∧ d = 4 then some "LK"
      else none }

/-- Witness for C4 at the concrete disagreeing pair. -/
theorem spec_c4_pairing_or_reported_witness :
    "MB" = "LK" ∨ Violation.genPairing 2 "MB" "LK" ∈ violationsOf cfgPairW stPairW :=
  spec_c4_pairing_or_reported cfgPairW stPairW 2 "MB" "LK" (by decide) (by decide)
    (by decide) (by decide) (by decide)

/-! ## C3: vacation and pre-vacation exclusion -/

/-- Claim C3 (amended form).  Any assignment of a rad on one of their
vacation days, or on the day immediately before one, is recorded by the
summary's constraint check as a vacation / pre-vacation violation: the
availability-checked assignment paths never produce one, but locked `X`
marks and the constraint-relaxing fallbacks (the IRA missing-day loop and
the MRI fallback pools) can, and every such placement is reported. -/
theorem spec_c3_vacation_reported (c : Config) (s : SchedSt) (r : Rad) (d : ℕ) (sec : Sec)
    (hr : r ∈ ALL_RADS) (hd1 : 1 ≤ d) (hd2 : d ≤ c.days) (hv : c.vacation r d = true) :
    (s.assign sec d = some r →
      Violation.vacationAssigned sec r d ∈ violationsOf c s)
    ∧ (1 < d → s.assign sec (d - 1) = some r →
      Violation.preVacationAssigned sec r (d - 1) ∈ violationsOf c s) := by
  constructor
  · intro ha
    refine mem_violations_of_vacation c s r d hr hd1 hd2 hv _ ?_
    unfold vacationEntries
    cases sec
    · rw [if_pos ha]
      exact List.mem_append_left _ (List.mem_append_left _
        (List.mem_append_left _ (List.mem_singleton.2 rfl)))
    · rw [if_pos ha]
      exact List.mem_append_left _ (List.mem_append_left _
        (List.mem_append_right _ (List.mem_singleton.2 rfl)))
    · rw [if_pos ha]
      exact List.mem_append_left _ (List.mem_append_right _ (List.mem_singleton.2 rfl))
  · intro hlt ha
    refine mem_violations_of_vacation c s r d hr hd1 hd2 hv _ ?_
    unfold vacationEntries
    refine List.mem_append_right _ ?_
    rw [if_pos hlt]
    cases sec
    · rw [if_pos ha]
      exact List.mem_append_left _ (List.mem_append_left _ (List.mem_singleton.2 rfl))
    · rw [if_pos ha]
      exact List.mem_append_left _ (List.mem_append_right _ (List.mem_singleton.2 rfl))
    · rw [if_pos ha]
      exact List.mem_append_right _ (List.mem_singleton.2 rfl)

/-! ## Concrete full-run configurations and counterexamples

All of these run the complete `generate_schedule` pipeline on January 2025
inputs and evaluate the resulting state in the kernel. -/

/-- January 2025 with every MRI-capable rad on vacation on day 1: the MRI
pass has an empty candidate pool on day 1 even in its last-resort branch. -/
def cfgC1ce : Config where
  year := 2025
  month := 1
  locked := fun _ _ => none
  vacation := fun r d => d == 1 && MRI_RADS.contains r
  special := fun _ _ => false
  soft := fun _ _ => false
  ytdCache := fun _ _ => 0

set_option maxRecDepth 100000 in
/-- Claim C1, counterexample: after the full run on `cfgC1ce`, day 1 of
the MRI section has no assigned rad (the pass prints an error and skips
the day), while GEN and IRA are covered — so a day can be left with zero
assigned rads in a section. -/
theorem spec_c1_counterexample :
    (runSchedule cfgC1ce).assign .MRI 1 = none ∧
    (runSchedule cfgC1ce).assign .GEN 1 = some "MB" ∧
    1 ≤ cfgC1ce.days := by
  with_unfolding_all decide

/-- January 2025 where the cell of rad MB on day 10 carries both a locked
`X` mark and the vacation colour. -/
def cfgC3ce : Config where
  year := 2025
  month := 1
  locked := fun sec d => if sec = Sec.GEN ∧ d = 10 then some "MB" else none
  vacation := fun r d => r == "MB" && d == 10
  special := fun _ _ => false
  soft := fun _ _ => false
  ytdCache := fun _ _ => 0

set_option maxRecDepth 100000 in
/-- Claim C3, counterexample: the locked mark is honoured without any
availability check, so the full run assigns MB to GEN on MB's own vacation
day 10. -/
theorem spec_c3_counterexample :
    (runSchedule cfgC3ce).assign .GEN 10 = some "MB" ∧
    cfgC3ce.vacation "MB" 10 = true := by
  with_unfolding_all decide

/-- January 2025 with eight locked GEN `X` marks for MB on
non-Thursday/Saturday days. -/
def cfgC5ce : Config where
  year := 2025
  month := 1
  locked := fun sec d =>
    if sec = Sec.GEN ∧ d ∈ ([1, 3, 5, 7, 10, 12, 14, 15] : List ℕ) then some "MB" else none
  vacation := fun _ _ => false
  special := fun _ _ => false
  soft := fun _ _ => false
  ytdCache := fun _ _ => 0

/-- January 2025 with four locked GEN `X` marks for the IRA rad MF on the
Fridays 3, 10, 17 and 24 (all of day-type weekend). -/
def cfgC5w : Config where
  year := 2025
  month := 1
  locked := fun sec d =>
    if sec = Sec.GEN ∧ d ∈ ([3, 10, 17, 24] : List ℕ) then some "MF" else none
  vacation := fun _ _ => false
  special := fun _ _ => false
  soft := fun _ _ => false
  ytdCache := fun _ _ => 0

set_option maxRecDepth 100000 in
/-- Claim C5, counterexample: locked marks are honoured and counted with
no cap check, so after the full run MB holds more than `MAX_MONTHLY_GEN`
GEN days (ten: eight locked plus one scored Thursday-Saturday pair); and
the IRA rad MF, locked onto four GEN Fridays, exceeds
`MAX_MONTHLY_WEEKENDS_GEN` while no weekend-limit violation for MF is in
the report, since the summary's weekend loop iterates `GEN_RADS` only. -/
theorem spec_c5_counterexample :
    (MAX_MONTHLY_GEN <
      ((List.range' 1 cfgC5ce.days).filter (fun d =>
        (runSchedule cfgC5ce).assign .GEN d == some "MB")).length) ∧
    ("MF" ∉ GEN_RADS ∧
      MAX_MONTHLY_WEEKENDS_GEN < genWeekendCount cfgC5w (runSchedule cfgC5w) "MF" ∧
      ((violationsOf cfgC5w (runSchedule cfgC5w)).all (fun v =>
        match v with
        | Violation.genWeekendLimit r _ => !(r == "MF")
        | _ => true)) = true) := by
  with_unfolding_all decide

/-- January 2025 with conflicting locked GEN marks: Thursday day 2 locked
to MB, its paired Saturday day 4 locked to LK. -/
def cfgC8ce : Config where
  year := 2025
  month := 1
  locked := fun sec d =>
    if sec = Sec.GEN ∧ d = 2 then some "MB"
    else if sec = Sec.GEN ∧ d = 4 then some "LK"
    else none
  vacation := fun _ _ => false
  special := fun _ _ => false
  soft := fun _ _ => false
  ytdCache := fun _ _ => 0

/-- Whether a violation entry is a GEN pairing conflict. -/
def isPairingViolation : Violation → Bool
  | .genPairing _ _ _ => true
  | _ => false

set_option maxRecDepth 100000 in
/-- Claim C8, evaluated at the failing input: the locked Thursday mark is
propagated to the paired Saturday, so the conflicting locked Saturday mark
(`LK`) is silently overwritten by `MB` in the final assignments, and the
summary's violation list contains no pairing-conflict entry at all (its
pairing check only compares the — now equal — final assignments). -/
theorem spec_c8_conflict_unreported :
    (runSchedule cfgC8ce).assign .GEN 2 = some "MB" ∧
    (runSchedule cfgC8ce).assign .GEN 4 = some "MB" ∧
    cfgC8ce.locked .GEN 4 = some "LK" ∧
    (violationsOf cfgC8ce (runSchedule cfgC8ce)).all
      (fun v => !isPairingViolation v) = true := by
  with_unfolding_all decide

/-! ## Counter consistency (C10)

`countersConsistent` states that the three per-section monthly totals
equal the number of in-month days each rad holds in the corresponding
assignment map; it is shown to hold after every individual assignment step
of the run. -/

/-- Number of days of the month assigned to `r` in section `sec`. -/
def countAssigned (c : Config) (s : SchedSt) (sec : Sec) (r : Rad) : ℕ :=
  ((List.range' 1 c.days).filter (fun d => s.assign sec d == some r)).length

/-- The C10 invariant: every counter agrees with its assignment map. -/
def countersConsistent (c : Config) (s : SchedSt) : Prop :=
  ∀ r, s.genTotal r = countAssigned c s .GEN r ∧
    s.iraTotal r = countAssigned c s .IRA r ∧
    s.mriTotal r = countAssigned c s .MRI r

lemma length_filter_update_true {l : List ℕ} {p q : ℕ → Bool} {day : ℕ}
    (hl : day ∈ l) (hnd : l.Nodup)
    (hagree : ∀ d, d ≠ day → p d = q d) (hp : p day = false) (hq : q day = true) :
    (l.filter q).length = (l.filter p).length + 1 := by
  induction l with
  | nil => cases hl
  | cons a l ih =>
    rcases List.mem_cons.1 hl with heq | hl'
    · subst heq
      have hnotin : day ∉ l := (List.nodup_cons.1 hnd).1
      have : l.filter p = l.filter q :=
        List.filter_congr (fun d hd => hagree d (fun h => hnotin (h ▸ hd)))
      simp [List.filter_cons, hp, hq, this]
    · have hna : a ≠ day := fun h => (List.nodup_cons.1 hnd).1 (h ▸ hl')
      have hpq := hagree a hna
      rcases hpa : p a with _ | _ <;>
        simp [List.filter_cons, hpa, ← hpq, ih hl' (List.nodup_cons.1 hnd).2]

lemma length_filter_update_false {l : List ℕ} {p q : ℕ → Bool} {day : ℕ}
    (hagree : ∀ d, d ≠ day → p d = q d) (hp : p day = false) (hq : q day = false) :
    (l.filter q).length = (l.filter p).length := by
  have : l.filter p = l.filter q := by
    refine List.filter_congr (fun d _ => ?_)
    by_cases h : d = day
    · rw [h, hp, hq]
    · exact hagree d h
  rw [this]

lemma recordAt_assign_self (sec : Sec) (day : ℕ) (rad : Rad) (dt : DayType) (s : SchedSt) :
    (recordAt sec day rad dt s).assign sec day = some rad := by
  simp [recordAt]

lemma recordAt_assign_of_ne (sec : Sec) (day : ℕ) (rad : Rad) (dt : DayType) (s : SchedSt)
    (sc : Sec) (d : ℕ) (h : ¬(sc = sec ∧ d = day)) :
    (recordAt sec day rad dt s).assign sc d = s.assign sc d := by
  simp only [recordAt]
  rw [if_neg h]

lemma countAssigned_recordAt (c : Config) (sec : Sec) (day : ℕ) (rad : Rad) (dt : DayType)
    (s : SchedSt) (sc : Sec) (r : Rad)
    (h1 : 1 ≤ day) (h2 : day ≤ c.days) (hfresh : s.assign sec day = none) :
    countAssigned c (recordAt sec day rad dt s) sc r =
      countAssigned c s sc r + (if sc = sec ∧ r = rad then 1 else 0) := by
  by_cases hsc : sc = sec
  · subst hsc
    by_cases hr : r = rad
    · subst hr
      rw [if_pos ⟨rfl, rfl⟩]
      refine @length_filter_update_true (List.range' 1 c.days) _ _ day
        ?_ (by simp [List.nodup_range']) ?_ ?_ ?_
      · rw [List.mem_range'_1]; omega
      · intro d hd
        rw [recordAt_assign_of_ne _ _ _ _ _ _ _ (by tauto)]
      · simp [hfresh]
      · simp [recordAt]
    · rw [if_neg (by tauto)]
      refine @length_filter_update_false _ _ _ day ?_ ?_ ?_
      · intro d hd
        rw [recordAt_assign_of_ne _ _ _ _ _ _ _ (by tauto)]
      · simp [hfresh]
      · simp only [recordAt]
        simp [Ne.symm hr]
  · rw [if_neg (by tauto)]
    unfold countAssigned
    congr 1
    refine List.filter_congr (fun d _ => ?_)
    rw [recordAt_assign_of_ne _ _ _ _ _ _ _ (by tauto)]

lemma countersConsistent_recordAt {c : Config} {s : SchedSt} (sec : Sec) (day : ℕ)
    (rad : Rad) (dt : DayType)
    (hc : countersConsistent c s) (h1 : 1 ≤ day) (h2 : day ≤ c.days)
    (hfresh : s.assign sec day = none) :
    countersConsistent c (recordAt sec day rad dt s) := by
  intro r
  obtain ⟨hg, hi, hm⟩ := hc r
  refine ⟨?_, ?_, ?_⟩ <;>
    rw [countAssigned_recordAt c sec day rad dt s _ r h1 h2 hfresh]
  · show (if sec = .GEN ∧ r = rad then s.genTotal r + 1 else s.genTotal r) = _
    by_cases h : sec = .GEN ∧ r = rad
    · rw [if_pos h, if_pos ⟨h.1.symm, h.2⟩]
      omega
    · rw [if_neg h, if_neg (fun hh => h ⟨hh.1.symm, hh.2⟩)]
      omega
  · show (if sec = .IRA ∧ r = rad then s.iraTotal r + 1 else s.iraTotal r) = _
    by_cases h : sec = .IRA ∧ r = rad
    · rw [if_pos h, if_pos ⟨h.1.symm, h.2⟩]
      omega
    · rw [if_neg h, if_neg (fun hh => h ⟨hh.1.symm, hh.2⟩)]
      omega
  · show (if sec = .MRI ∧ r = rad then s.mriTotal r + 1 else s.mriTotal r) = _
    by_cases h : sec = .MRI ∧ r = rad
    · rw [if_pos h, if_pos ⟨h.1.symm, h.2⟩]
      omega
    · rw [if_neg h, if_neg (fun hh => h ⟨hh.1.symm, hh.2⟩)]
      omega

/-- Updating only the pass-local accumulators keeps the invariant. -/
lemma countersConsistent_aux_update {c : Config} {s : SchedSt}
    (hc : countersConsistent c s) (iwc : Rad → ℕ) (lwr : Option Rad) (mo : Rad → ℕ) :
    countersConsistent c
      { s with iraWeekendCount := iwc, lastWeekendRad := lwr, mriOnly := mo } := by
  intro r
  exact hc r

/-! ## Weekday arithmetic and freshness of the paired passes -/

lemma pyWeekday_add (y m d k : ℕ) :
    pyWeekday y m (d + k) = (pyWeekday y m d + k) % 7 := by
  unfold pyWeekday toOrdinal
  omega

lemma dayTypeOf_eq_thu_iff (y m d : ℕ) :
    dayTypeOf y m d = .thu ↔ pyWeekday y m d = 3 := by
  simp only [dayTypeOf]
  split_ifs with h1 h2 <;> simp_all

/-- Two days of Thursday type are never 1 or 2 days apart. -/
lemma thu_add_not_thu (y m t k : ℕ) (hk : k = 1 ∨ k = 2)
    (ht : dayTypeOf y m t = .thu) : dayTypeOf y m (t + k) ≠ .thu := by
  intro hcon
  rw [dayTypeOf_eq_thu_iff] at ht hcon
  rw [pyWeekday_add, ht] at hcon
  rcases hk with rfl | rfl <;> omega

/-- During the GEN pair pass with next day to process `k`, every assigned
GEN day is the Thursday or Saturday of an already processed pair. -/
def pairFresh (c : Config) (k : ℕ) (s : SchedSt) : Prop :=
  ∀ e, s.assign .GEN e ≠ none →
    ∃ t, t < k ∧ c.dayType t = .thu ∧ t + 2 ≤ c.days ∧ (e = t ∨ e = t + 2)

/-- Analogue for the IRA triplet pass. -/
def tripletFresh (c : Config) (k : ℕ) (s : SchedSt) : Prop :=
  ∀ e, s.assign .IRA e ≠ none →
    ∃ t, t < k ∧ c.dayType t = .thu ∧ t + 2 ≤ c.days ∧ (e = t ∨ e = t + 1 ∨ e = t + 2)

lemma pairFresh_mono {c : Config} {k k' : ℕ} {s : SchedSt} (h : k ≤ k')
    (hp : pairFresh c k s) : pairFresh c k' s := by
  intro e he
  obtain ⟨t, h1, h2, h3, h4⟩ := hp e he
  exact ⟨t, lt_of_lt_of_le h1 h, h2, h3, h4⟩

lemma tripletFresh_mono {c : Config} {k k' : ℕ} {s : SchedSt} (h : k ≤ k')
    (hp : tripletFresh c k s) : tripletFresh c k' s := by
  intro e he
  obtain ⟨t, h1, h2, h3, h4⟩ := hp e he
  exact ⟨t, lt_of_lt_of_le h1 h, h2, h3, h4⟩

lemma pairFresh_none {c : Config} {d : ℕ} {s : SchedSt}
    (hf : pairFresh c d s) (hthu : c.dayType d = .thu) :
    s.assign .GEN d = none ∧ s.assign .GEN (d + 2) = none := by
  constructor
  · by_contra hne
    obtain ⟨t, h1, h2, _, h4⟩ := hf d hne
    rcases h4 with rfl | h4
    · omega
    · have hd : d = t + 2 := h4
      exact thu_add_not_thu c.year c.month t 2 (Or.inr rfl) h2 (hd ▸ hthu)
  · by_contra hne
    obtain ⟨t, h1, _, _, h4⟩ := hf (d + 2) hne
    omega

lemma tripletFresh_none {c : Config} {d : ℕ} {s : SchedSt}
    (hf : tripletFresh c d s) (hthu : c.dayType d = .thu) :
    s.assign .IRA d = none ∧ s.assign .IRA (d + 1) = none ∧
      s.assign .IRA (d + 2) = none := by
  refine ⟨?_, ?_, ?_⟩
  · by_contra hne
    obtain ⟨t, h1, h2, _, h4⟩ := hf d hne
    rcases h4 with rfl | h4 | h4
    · omega
    · have hd : d = t + 1 := h4
      exact thu_add_not_thu c.year c.month t 1 (Or.inl rfl) h2 (hd ▸ hthu)
    · have hd : d = t + 2 := h4
      exact thu_add_not_thu c.year c.month t 2 (Or.inr rfl) h2 (hd ▸ hthu)
  · by_contra hne
    obtain ⟨t, h1, h2, _, h4⟩ := hf (d + 1) hne
    rcases h4 with h4 | h4 | h4
    · omega
    · omega
    · have hd : d = t + 1 := by omega
      exact thu_add_not_thu c.year c.month t 1 (Or.inl rfl) h2 (hd ▸ hthu)
  · by_contra hne
    obtain ⟨t, h1, _, _, h4⟩ := hf (d + 2) hne
    omega

/-! ## `pyMin` facts -/

lemma pyMin_isSome {α : Type} (l : List α) (f : α → ℚ) (hl : l ≠ []) :
    ∃ b, pyMin l f = some b := by
  unfold pyMin
  cases l with
  | nil => exact absurd rfl hl
  | cons a t =>
    suffices h : ∀ (t : List α) (b : α),
        ∃ r, t.foldl (fun acc r =>
          match acc with
          | none => some r
          | some b => if f r < f b then some r else acc) (some b) = some r by
      simpa using h t a
    intro t
    induction t with
    | nil => exact fun b => ⟨b, rfl⟩
    | cons x xs ih =>
      intro b
      simp only [List.foldl_cons]
      by_cases hx : f x < f b
      · rw [if_pos hx]
        exact ih x
      · rw [if_neg hx]
        exact ih b
/-! ## Invariant preservation by each per-day step -/

lemma countersConsistent_remainingStep {c : Config} {s : SchedSt} (sec : Sec)
    (elig : List Rad) (day : ℕ) (h1 : 1 ≤ day) (h2 : day ≤ c.days)
    (hc : countersConsistent c s) :
    countersConsistent c (remainingStep c sec elig s day) := by
  simp only [remainingStep]
  split
  · exact hc
  · rename_i hassigned
    have hfresh : s.assign sec day = none := not_ne_iff.mp hassigned
    split
    · rename_i rad hlk
      exact countersConsistent_recordAt sec day rad (c.dayType day) hc h1 h2 hfresh
    · split
      · exact hc
      · rename_i best hpm
        exact countersConsistent_recordAt sec day best (c.dayType day) hc h1 h2 hfresh

lemma countersConsistent_iraWeekdayStep {c : Config} {s : SchedSt} (fb : Bool)
    (day : ℕ) (h1 : 1 ≤ day) (h2 : day ≤ c.days) (hc : countersConsistent c s) :
    countersConsistent c (iraWeekdayStep fb c s day) := by
  simp only [iraWeekdayStep]
  split
  · exact hc
  · rename_i hassigned
    have hfresh : s.assign .IRA day = none := not_ne_iff.mp hassigned
    split
    · rename_i rad hlk
      exact countersConsistent_recordAt .IRA day rad (c.dayType day) hc h1 h2 hfresh
    · split
      · exact hc
      · rename_i best hpm
        exact countersConsistent_recordAt .IRA day best (c.dayType day) hc h1 h2 hfresh

lemma countersConsistent_mriStep {c : Config} {s : SchedSt}
    (day : ℕ) (h1 : 1 ≤ day) (h2 : day ≤ c.days) (hc : countersConsistent c s) :
    countersConsistent c (mriStep c s day) := by
  simp only [mriStep]
  split
  · exact hc
  · rename_i hassigned
    have hfresh : s.assign .MRI day = none := not_ne_iff.mp hassigned
    split
    · rename_i rad hlk
      exact countersConsistent_recordAt .MRI day rad (c.dayType day) hc h1 h2 hfresh
    · split
      · rename_i g hstrat
        exact countersConsistent_recordAt .MRI day g (c.dayType day) hc h1 h2 hfresh
      · split
        · rename_i i hstrat
          exact countersConsistent_recordAt .MRI day i (c.dayType day) hc h1 h2 hfresh
        · split
          · rename_i best hpm
            exact countersConsistent_recordAt .MRI day best (c.dayType day) hc h1 h2 hfresh
          · split
            · rename_i best hpm
              exact countersConsistent_recordAt .MRI day best (c.dayType day) hc h1 h2 hfresh
            · split
              · rename_i best hpm
                exact countersConsistent_recordAt .MRI day best (c.dayType day) hc h1 h2 hfresh
              · exact hc

/-- Recording a full GEN Thursday-Saturday pair preserves the counter
invariant, updates the pair-pass freshness bound, and leaves IRA empty. -/
lemma genPair_record_inv {c : Config} {s : SchedSt} {d : ℕ} (rad : Rad)
    (hd1 : 1 ≤ d) (hthu : c.dayType d = .thu) (hsat : d + 2 ≤ c.days)
    (hc : countersConsistent c s) (hf : pairFresh c d s)
    (hira : ∀ e, s.assign .IRA e = none) :
    countersConsistent c (recordAt .GEN (d + 2) rad .weekend (recordAt .GEN d rad .thu s)) ∧
    pairFresh c (d + 1) (recordAt .GEN (d + 2) rad .weekend (recordAt .GEN d rad .thu s)) ∧
    (∀ e, (recordAt .GEN (d + 2) rad .weekend
      (recordAt .GEN d rad .thu s)).assign .IRA e = none) := by
  obtain ⟨hfd, hfd2⟩ := pairFresh_none hf hthu
  have hinner : countersConsistent c (recordAt .GEN d rad .thu s) :=
    countersConsistent_recordAt .GEN d rad .thu hc hd1 (by omega) hfd
  have hfresh2 : (recordAt .GEN d rad .thu s).assign .GEN (d + 2) = none := by
    rw [recordAt_assign_of_ne _ _ _ _ _ _ _ (fun h => absurd h.2 (by omega))]
    exact hfd2
  refine ⟨countersConsistent_recordAt .GEN (d + 2) rad .weekend hinner (by omega) hsat hfresh2,
    ?_, ?_⟩
  · intro e he
    by_cases he1 : e = d
    · exact ⟨d, by omega, hthu, hsat, Or.inl he1⟩
    · by_cases he2 : e = d + 2
      · exact ⟨d, by omega, hthu, hsat, Or.inr he2⟩
      · rw [recordAt_assign_of_ne _ _ _ _ _ _ _ (fun h => he2 h.2),
          recordAt_assign_of_ne _ _ _ _ _ _ _ (fun h => he1 h.2)] at he
        obtain ⟨t, ht1, ht2, ht3, ht4⟩ := hf e he
        exact ⟨t, by omega, ht2, ht3, ht4⟩
  · intro e
    rw [recordAt_assign_of_ne _ _ _ _ _ _ _ (fun h => by exact absurd h.1 (by decide)),
      recordAt_assign_of_ne _ _ _ _ _ _ _ (fun h => by exact absurd h.1 (by decide))]
    exact hira e

lemma genPairStep_inv {c : Config} {s : SchedSt} (d : ℕ) (hd1 : 1 ≤ d)
    (hc : countersConsistent c s) (hf : pairFresh c d s)
    (hira : ∀ e, s.assign .IRA e = none) :
    countersConsistent c (genPairStep c s d) ∧ pairFresh c (d + 1) (genPairStep c s d) ∧
    (∀ e, (genPairStep c s d).assign .IRA e = none) := by
  simp only [genPairStep]
  split
  · exact ⟨hc, pairFresh_mono (by omega) hf, hira⟩
  · rename_i hthu'
    have hthu : c.dayType d = .thu := not_ne_iff.mp hthu'
    split
    · exact ⟨hc, pairFresh_mono (by omega) hf, hira⟩
    · rename_i hsat'
      have hsat : d + 2 ≤ c.days := by omega
      split
      · exact ⟨hc, pairFresh_mono (by omega) hf, hira⟩
      · split
        · rename_i rad hlk
          exact genPair_record_inv rad hd1 hthu hsat hc hf hira
        · split
          · exact ⟨hc, pairFresh_mono (by omega) hf, hira⟩
          · rename_i best hpm
            exact genPair_record_inv best hd1 hthu hsat hc hf hira

/-- Recording a full IRA triplet preserves the invariant and updates the
triplet-pass freshness bound. -/
lemma iraTriplet_record_inv {c : Config} {s : SchedSt} {d : ℕ} (rad : Rad)
    (hd1 : 1 ≤ d) (hthu : c.dayType d = .thu) (hsat : d + 2 ≤ c.days)
    (hc : countersConsistent c s) (hf : tripletFresh c d s) :
    countersConsistent c (recordAt .IRA (d + 2) rad .weekend (recordAt .IRA (d + 1) rad .weekend
      (recordAt .IRA d rad .thu s))) ∧
    tripletFresh c (d + 1) (recordAt .IRA (d + 2) rad .weekend (recordAt .IRA (d + 1) rad .weekend
      (recordAt .IRA d rad .thu s))) := by
  obtain ⟨hfd, hfd1, hfd2⟩ := tripletFresh_none hf hthu
  have h1 : countersConsistent c (recordAt .IRA d rad .thu s) :=
    countersConsistent_recordAt .IRA d rad .thu hc hd1 (by omega) hfd
  have hfr1 : (recordAt .IRA d rad .thu s).assign .IRA (d + 1) = none := by
    rw [recordAt_assign_of_ne _ _ _ _ _ _ _ (fun h => absurd h.2 (by omega))]
    exact hfd1
  have h2 : countersConsistent c (recordAt .IRA (d + 1) rad .weekend
      (recordAt .IRA d rad .thu s)) :=
    countersConsistent_recordAt .IRA (d + 1) rad .weekend h1 (by omega) (by omega) hfr1
  have hfr2 : (recordAt .IRA (d + 1) rad .weekend
      (recordAt .IRA d rad .thu s)).assign .IRA (d + 2) = none := by
    rw [recordAt_assign_of_ne _ _ _ _ _ _ _ (fun h => absurd h.2 (by omega)),
      recordAt_assign_of_ne _ _ _ _ _ _ _ (fun h => absurd h.2 (by omega))]
    exact hfd2
  refine ⟨countersConsistent_recordAt .IRA (d + 2) rad .weekend h2 (by omega) hsat hfr2, ?_⟩
  intro e he
  by_cases he1 : e = d
  · exact ⟨d, by omega, hthu, hsat, Or.inl he1⟩
  · by_cases he2 : e = d + 1
    · exact ⟨d, by omega, hthu, hsat, Or.inr (Or.inl he2)⟩
    · by_cases he3 : e = d + 2
      · exact ⟨d, by omega, hthu, hsat, Or.inr (Or.inr he3)⟩
      · rw [recordAt_assign_of_ne _ _ _ _ _ _ _ (fun h => he3 h.2),
          recordAt_assign_of_ne _ _ _ _ _ _ _ (fun h => he2 h.2),
          recordAt_assign_of_ne _ _ _ _ _ _ _ (fun h => he1 h.2)] at he
        obtain ⟨t, ht1, ht2, ht3, ht4⟩ := hf e he
        exact ⟨t, by omega, ht2, ht3, ht4⟩

lemma iraTripletStep_inv {c : Config} {s : SchedSt} (d : ℕ) (hd1 : 1 ≤ d)
    (hc : countersConsistent c s) (hf : tripletFresh c d s) :
    countersConsistent c (iraTripletStep c s d) ∧
    tripletFresh c (d + 1) (iraTripletStep c s d) := by
  simp only [iraTripletStep]
  split
  · exact ⟨hc, tripletFresh_mono (by omega) hf⟩
  · rename_i hthu'
    have hthu : c.dayType d = .thu := not_ne_iff.mp hthu'
    split
    · exact ⟨hc, tripletFresh_mono (by omega) hf⟩
    · rename_i hsat'
      have hsat : d + 2 ≤ c.days := by omega
      split
      · rename_i rad hlk
        exact iraTriplet_record_inv rad hd1 hthu hsat hc hf
      · split
        · exact ⟨hc, tripletFresh_mono (by omega) hf⟩
        · rename_i best hpm
          exact iraTriplet_record_inv best hd1 hthu hsat hc hf
/-! ## Sweep-level lemmas -/

lemma countersConsistent_initSt (c : Config) : countersConsistent c initSt := by
  intro r
  refine ⟨?_, ?_, ?_⟩ <;> simp [initSt, countAssigned]

lemma pairSweep_inv (c : Config) : ∀ (cnt lo : ℕ) (s : SchedSt), 1 ≤ lo →
    countersConsistent c s → pairFresh c lo s → (∀ e, s.assign .IRA e = none) →
    countersConsistent c ((List.range' lo cnt).foldl (genPairStep c) s) ∧
    pairFresh c (lo + cnt) ((List.range' lo cnt).foldl (genPairStep c) s) ∧
    (∀ e, ((List.range' lo cnt).foldl (genPairStep c) s).assign .IRA e = none) := by
  intro cnt
  induction cnt with
  | zero =>
    intro lo s h1 hc hf hira
    exact ⟨hc, hf, hira⟩
  | succ n ih =>
    intro lo s h1 hc hf hira
    rw [List.range'_succ]
    simp only [List.foldl_cons]
    obtain ⟨hc', hf', hira'⟩ := genPairStep_inv lo h1 hc hf hira
    have h := ih (lo + 1) (genPairStep c s lo) (by omega) hc' hf' hira'
    rwa [show lo + 1 + n = lo + (n + 1) by omega] at h

lemma tripletSweep_inv (c : Config) : ∀ (cnt lo : ℕ) (s : SchedSt), 1 ≤ lo →
    countersConsistent c s → tripletFresh c lo s →
    countersConsistent c ((List.range' lo cnt).foldl (iraTripletStep c) s) := by
  intro cnt
  induction cnt with
  | zero =>
    intro lo s h1 hc hf
    exact hc
  | succ n ih =>
    intro lo s h1 hc hf
    rw [List.range'_succ]
    simp only [List.foldl_cons]
    obtain ⟨hc', hf'⟩ := iraTripletStep_inv lo h1 hc hf
    exact ih (lo + 1) (iraTripletStep c s lo) (by omega) hc' hf'

lemma guardedSweep_inv (c : Config) (F : SchedSt → ℕ → SchedSt)
    (hF : ∀ (s : SchedSt) (d : ℕ), 1 ≤ d → d ≤ c.days → countersConsistent c s →
      countersConsistent c (F s d)) :
    ∀ (cnt lo : ℕ) (s : SchedSt), 1 ≤ lo → lo + cnt ≤ c.days + 1 →
    countersConsistent c s → countersConsistent c ((List.range' lo cnt).foldl F s) := by
  intro cnt
  induction cnt with
  | zero =>
    intro lo s h1 h2 hc
    exact hc
  | succ n ih =>
    intro lo s h1 h2 hc
    rw [List.range'_succ]
    simp only [List.foldl_cons]
    exact ih (lo + 1) (F s lo) (by omega) (by omega) (hF s lo h1 (by omega) hc)

/-- The counter invariant holds after any six-sweep prefix composition of
the pipeline (the `kᵢ` are how many days of sweep `i` have run). -/
lemma countersConsistent_sixfold (c : Config) (k1 k2 k3 k4 k5 k6 : ℕ)
    (h3 : k3 ≤ c.days) (h4 : k4 ≤ c.days) (h5 : k5 ≤ c.days) (h6 : k6 ≤ c.days) :
    countersConsistent c
      ((List.range' 1 k6).foldl (mriStep c)
      ((List.range' 1 k5).foldl (iraWeekdayStep true c)
      ((List.range' 1 k4).foldl (iraWeekdayStep false c)
      ((List.range' 1 k3).foldl (fun s d => remainingStep c .GEN GEN_RADS_WITH_IRA s d)
      ((List.range' 1 k2).foldl (iraTripletStep c)
      ((List.range' 1 k1).foldl (genPairStep c) initSt)))))) := by
  obtain ⟨hc1, hf1, hira1⟩ := pairSweep_inv c k1 1 initSt (le_refl 1)
    (countersConsistent_initSt c) (fun e he => absurd rfl he) (fun e => rfl)
  have hc2 := tripletSweep_inv c k2 1 _ (le_refl 1) hc1
    (fun e he => absurd (hira1 e) he)
  have hc3 := guardedSweep_inv c _ (fun s d hd1 hd2 hc =>
    countersConsistent_remainingStep .GEN GEN_RADS_WITH_IRA d hd1 hd2 hc)
    k3 1 _ (le_refl 1) (by omega) hc2
  have hc4 := guardedSweep_inv c _ (fun s d hd1 hd2 hc =>
    countersConsistent_iraWeekdayStep false d hd1 hd2 hc)
    k4 1 _ (le_refl 1) (by omega) hc3
  have hc5 := guardedSweep_inv c _ (fun s d hd1 hd2 hc =>
    countersConsistent_iraWeekdayStep true d hd1 hd2 hc)
    k5 1 _ (le_refl 1) (by omega) hc4
  exact guardedSweep_inv c _ (fun s d hd1 hd2 hc =>
    countersConsistent_mriStep d hd1 hd2 hc)
    k6 1 _ (le_refl 1) (by omega) hc5

/-! ## Decomposition of the pipeline prefix -/

lemma range'_take (s n k : ℕ) : (List.range' s n).take k = List.range' s (min k n) := by
  induction n generalizing s k with
  | zero => simp
  | succ n ih =>
    cases k with
    | zero => simp
    | succ k => simp [List.range'_succ, ih, Nat.succ_min_succ]

lemma take_append_foldl (l1 l2 : List (SchedSt → SchedSt)) (k : ℕ) (s : SchedSt) :
    ((l1 ++ l2).take k).foldl (fun s f => f s) s =
      (l2.take (k - l1.length)).foldl (fun s f => f s)
        ((l1.take k).foldl (fun s f => f s) s) := by
  rw [List.take_append_eq_append_take, List.foldl_append]

lemma take_sweep_foldl (F : SchedSt → ℕ → SchedSt) (n k : ℕ) (s : SchedSt) :
    (((List.range' 1 n).map (fun d s => F s d)).take k).foldl (fun s f => f s) s =
      (List.range' 1 (min k n)).foldl F s := by
  rw [← List.map_take, range'_take, List.foldl_map]

/-- `stateAt` in closed six-sweep form. -/
lemma stateAt_eq (c : Config) (k : ℕ) :
    stateAt c k =
      (List.range' 1 (min (k - ((enrichSoft c).days + (enrichSoft c).days +
          (enrichSoft c).days + (enrichSoft c).days + (enrichSoft c).days))
          (enrichSoft c).days)).foldl (mriStep (enrichSoft c))
      ((List.range' 1 (min (k - ((enrichSoft c).days + (enrichSoft c).days +
          (enrichSoft c).days + (enrichSoft c).days)) (enrichSoft c).days)).foldl
          (iraWeekdayStep true (enrichSoft c))
      ((List.range' 1 (min (k - ((enrichSoft c).days + (enrichSoft c).days +
          (enrichSoft c).days)) (enrichSoft c).days)).foldl
          (iraWeekdayStep false (enrichSoft c))
      ((List.range' 1 (min (k - ((enrichSoft c).days + (enrichSoft c).days))
          (enrichSoft c).days)).foldl
          (fun s d => remainingStep (enrichSoft c) .GEN GEN_RADS_WITH_IRA s d)
      ((List.range' 1 (min (k - (enrichSoft c).days) (enrichSoft c).days)).foldl
          (iraTripletStep (enrichSoft c))
      ((List.range' 1 (min k (enrichSoft c).days)).foldl
          (genPairStep (enrichSoft c)) initSt))))) := by
  unfold stateAt pipelineSteps
  rw [take_append_foldl, take_append_foldl, take_append_foldl, take_append_foldl,
    take_append_foldl]
  simp only [List.length_append, List.length_map, List.length_range']
  rw [take_sweep_foldl, take_sweep_foldl, take_sweep_foldl, take_sweep_foldl,
    take_sweep_foldl, take_sweep_foldl]

/-- `runSchedule` in closed six-sweep form. -/
lemma runSchedule_sweeps (c : Config) :
    runSchedule c =
      (List.range' 1 (enrichSoft c).days).foldl (mriStep (enrichSoft c))
      ((List.range' 1 (enrichSoft c).days).foldl (iraWeekdayStep true (enrichSoft c))
      ((List.range' 1 (enrichSoft c).days).foldl (iraWeekdayStep false (enrichSoft c))
      ((List.range' 1 (enrichSoft c).days).foldl
          (fun s d => remainingStep (enrichSoft c) .GEN GEN_RADS_WITH_IRA s d)
      ((List.range' 1 (enrichSoft c).days).foldl (iraTripletStep (enrichSoft c))
      ((List.range' 1 (enrichSoft c).days).foldl
          (genPairStep (enrichSoft c)) initSt))))) := by
  unfold runSchedule pipelineSteps
  rw [List.foldl_append, List.foldl_append, List.foldl_append, List.foldl_append,
    List.foldl_append]
  rw [List.foldl_map, List.foldl_map, List.foldl_map, List.foldl_map, List.foldl_map,
    List.foldl_map]

/-- The invariant holds at every prefix of the pipeline and after the
complete run. -/
lemma countersConsistent_stateAt (c : Config) (k : ℕ) :
    countersConsistent c (stateAt c k) := by
  rw [stateAt_eq]
  exact countersConsistent_sixfold (enrichSoft c) _ _ _ _ _ _
    (Nat.min_le_right _ _) (Nat.min_le_right _ _) (Nat.min_le_right _ _)
    (Nat.min_le_right _ _)

lemma countersConsistent_runSchedule (c : Config) :
    countersConsistent c (runSchedule c) := by
  rw [runSchedule_sweeps]
  exact countersConsistent_sixfold (enrichSoft c) _ _ _ _ _ _
    (le_refl _) (le_refl _) (le_refl _) (le_refl _)
/-! ## Assignment persistence and IRA coverage -/

lemma recordAt_ne_none {s : SchedSt} (sec : Sec) (day : ℕ) (rad : Rad) (dt : DayType)
    (sc : Sec) (e : ℕ) (h : s.assign sc e ≠ none) :
    (recordAt sec day rad dt s).assign sc e ≠ none := by
  by_cases hcase : sc = sec ∧ e = day
  · simp only [recordAt, if_pos hcase]
    exact Option.some_ne_none rad
  · rw [recordAt_assign_of_ne _ _ _ _ _ _ _ hcase]
    exact h

lemma assigned_persists_iraWeekdayStep (fb : Bool) (c : Config) (s : SchedSt) (day : ℕ)
    (sc : Sec) (e : ℕ) (h : s.assign sc e ≠ none) :
    (iraWeekdayStep fb c s day).assign sc e ≠ none := by
  simp only [iraWeekdayStep]
  split
  · exact h
  · split
    · exact recordAt_ne_none _ _ _ _ _ _ h
    · split
      · exact h
      · exact recordAt_ne_none _ _ _ _ _ _ h

lemma assigned_persists_mriStep (c : Config) (s : SchedSt) (day : ℕ)
    (sc : Sec) (e : ℕ) (h : s.assign sc e ≠ none) :
    (mriStep c s day).assign sc e ≠ none := by
  simp only [mriStep]
  split
  · exact h
  · split
    · exact recordAt_ne_none _ _ _ (c.dayType day) _ _ h
    · split
      · exact recordAt_ne_none _ _ _ (c.dayType day) _ _ h
      · split
        · exact recordAt_ne_none _ _ _ (c.dayType day) _ _ h
        · split
          · exact recordAt_ne_none _ _ _ (c.dayType day) _ _ h
          · split
            · exact recordAt_ne_none _ _ _ (c.dayType day) _ _ h
            · split
              · exact recordAt_ne_none _ _ _ (c.dayType day) _ _ h
              · exact h

lemma assigned_persists_foldl (F : SchedSt → ℕ → SchedSt)
    (hF : ∀ (s : SchedSt) (d : ℕ) (sc : Sec) (e : ℕ),
      s.assign sc e ≠ none → (F s d).assign sc e ≠ none) :
    ∀ (l : List ℕ) (s : SchedSt) (sc : Sec) (e : ℕ),
      s.assign sc e ≠ none → (l.foldl F s).assign sc e ≠ none := by
  intro l
  induction l with
  | nil => exact fun s sc e h => h
  | cons a t ih =>
    intro s sc e h
    simp only [List.foldl_cons]
    exact ih (F s a) sc e (hF s a sc e h)

/-- The second (missing-days) IRA weekday loop always leaves its day
assigned: its fallback pool is the whole `IRA_RADS`. -/
lemma iraWeekdayStep_true_covers (c : Config) (s : SchedSt) (day : ℕ) :
    (iraWeekdayStep true c s day).assign .IRA day ≠ none := by
  simp only [iraWeekdayStep]
  split
  · rename_i h
    exact h
  · split
    · rename_i rad hlk
      rw [recordAt_assign_self]
      exact Option.some_ne_none rad
    · rename_i hlk
      split
      · rename_i hpm
        exfalso
        have hne : (if (IRA_RADS.filter
            (fun r => is_available c s r day Sec.IRA)).isEmpty = true then
            (if true = true then IRA_RADS else []) else
            IRA_RADS.filter (fun r => is_available c s r day Sec.IRA)) ≠ [] := by
          split
          · simp [IRA_RADS]
          · rename_i hA
            intro hnil
            rw [hnil] at hA
            exact hA rfl
        obtain ⟨b, hb⟩ := pyMin_isSome _ (fun r =>
          calculate_workload_score c s r day (c.dayType day) .IRA +
          (if r ∈ MRI_RADS then (-200 : ℚ) else 0)) hne
        exact Option.noConfusion (hb.symm.trans hpm)
      · rename_i best hpm
        rw [recordAt_assign_self]
        exact Option.some_ne_none best

lemma iraCoverSweep (c : Config) : ∀ (cnt lo : ℕ) (s : SchedSt),
    (∀ e, 1 ≤ e → e < lo → s.assign .IRA e ≠ none) →
    ∀ e, 1 ≤ e → e < lo + cnt →
      ((List.range' lo cnt).foldl (iraWeekdayStep true c) s).assign .IRA e ≠ none := by
  intro cnt
  induction cnt with
  | zero =>
    intro lo s h e he1 he2
    exact h e he1 (by omega)
  | succ n ih =>
    intro lo s h e he1 he2
    rw [List.range'_succ]
    simp only [List.foldl_cons]
    refine ih (lo + 1) _ ?_ e he1 (by omega)
    intro e2 he1' he2'
    by_cases he : e2 = lo
    · subst he
      exact iraWeekdayStep_true_covers c s e2
    · exact assigned_persists_iraWeekdayStep true c s lo .IRA e2 (h e2 he1' (by omega))

/-! ## C10: counters match the assignment maps at every step -/

/-- Claim C10.  After each individual per-day assignment step of the run
(any prefix of the pipeline, hence also at the end), every rad's
`gen_monthly_total`, `ira_monthly_total` and `mri_monthly_total` equal the
number of days the rad holds in the corresponding assignment map. -/
theorem spec_c10_counters_consistent (c : Config) (k : ℕ) (r : Rad) :
    (stateAt c k).genTotal r = countAssigned c (stateAt c k) .GEN r ∧
    (stateAt c k).iraTotal r = countAssigned c (stateAt c k) .IRA r ∧
    (stateAt c k).mriTotal r = countAssigned c (stateAt c k) .MRI r :=
  countersConsistent_stateAt c k r

/-! ## C5: monthly caps, or a reported violation -/

lemma genWeekendLimit_not_mem_vacationEntries (s : SchedSt) (r2 : Rad) (d : ℕ)
    (r : Rad) (n : ℕ) : Violation.genWeekendLimit r n ∉ vacationEntries s r2 d := by
  intro h
  unfold vacationEntries at h
  simp only [List.mem_append, or_assoc] at h
  rcases h with h | h | h | h
  · split at h <;> simp at h
  · split at h <;> simp at h
  · split at h <;> simp at h
  · split at h
    · simp only [List.mem_append, or_assoc] at h
      rcases h with h | h | h <;> (split at h <;> simp at h)
    · simp at h

set_option maxHeartbeats 1000000 in
/-- Only rads of the primary GEN pool can appear in a weekend-limit
violation: every other segment of the summary emits other constructors,
and the weekend-limit loop iterates over `GEN_RADS` alone. -/
lemma genWeekendLimit_mem_pool (c : Config) (s : SchedSt) (r : Rad) (n : ℕ)
    (h : Violation.genWeekendLimit r n ∈ violationsOf c s) : r ∈ GEN_RADS := by
  unfold violationsOf at h
  simp only [List.mem_append, or_assoc] at h
  rcases h with h | h | h | h | h | h | h | h | h | h | h
  · obtain ⟨d, -, h⟩ := List.mem_flatMap.1 h
    split at h <;> (try split at h) <;> simp at h
  · obtain ⟨d, -, h⟩ := List.mem_flatMap.1 h
    split at h
    · split at h
      · obtain ⟨fd, -, h⟩ := List.mem_flatMap.1 h
        split at h <;> simp at h
      · simp at h
    · simp at h
  · obtain ⟨r2, -, h⟩ := List.mem_flatMap.1 h
    obtain ⟨d, -, h⟩ := List.mem_flatMap.1 h
    split at h
    · exact absurd h (genWeekendLimit_not_mem_vacationEntries s r2 d r n)
    · simp at h
  · obtain ⟨d, -, h⟩ := List.mem_flatMap.1 h
    split at h <;> (try split at h) <;> simp at h
  · obtain ⟨d, -, h⟩ := List.mem_flatMap.1 h
    split at h <;> (try split at h) <;> (try split at h) <;> simp at h
  · obtain ⟨d, -, h⟩ := List.mem_flatMap.1 h
    split at h
    · rcases List.mem_append.1 h with h | h <;>
        (split at h <;> (try split at h) <;> simp at h)
    · simp at h
  · obtain ⟨r2, hr2, h⟩ := List.mem_flatMap.1 h
    split at h
    · rw [List.mem_singleton] at h
      injection h with h1 h2
      subst h1
      exact hr2
    · simp at h
  · obtain ⟨r2, -, h⟩ := List.mem_flatMap.1 h
    split at h <;> simp at h
  · obtain ⟨r2, -, h⟩ := List.mem_flatMap.1 h
    split at h <;> simp at h
  · obtain ⟨r2, -, h⟩ := List.mem_flatMap.1 h
    split at h <;> simp at h
  · obtain ⟨d, -, h⟩ := List.mem_flatMap.1 h
    simp only [List.mem_append, or_assoc] at h
    rcases h with h | h | h <;> (split at h <;> simp at h)

/-- Claim C5 (amended form).  In the final schedule every rad's monthly
GEN, IRA and MRI totals respect the configured caps, or the exceedance —
possible only via locked `X` marks and the constraint-relaxing fallbacks —
is reported by the summary's constraint check; the GEN weekend cap is
likewise respected-or-reported for the nine primary `GEN_RADS`, while a
rad outside that pool (an IRA rad, who can hold GEN days through locked
marks) never receives a weekend-limit violation, so such an exceedance
goes unreported. -/
theorem spec_c5_caps_or_reported (c : Config) (r : Rad) :
    (r ∈ GEN_RADS_WITH_IRA →
      countAssigned c (runSchedule c) .GEN r ≤ MAX_MONTHLY_GEN ∨
      Violation.genCap r ((runSchedule c).genTotal r) ∈
        violationsOf c (runSchedule c)) ∧
    (r ∈ IRA_RADS →
      countAssigned c (runSchedule c) .IRA r ≤ MAX_MONTHLY_IRA ∨
      Violation.iraCap r ((runSchedule c).iraTotal r) ∈
        violationsOf c (runSchedule c)) ∧
    (r ∈ MRI_RADS →
      countAssigned c (runSchedule c) .MRI r ≤ MAX_MONTHLY_MRI ∨
      Violation.mriCap r ((runSchedule c).mriTotal r) ∈
        violationsOf c (runSchedule c)) ∧
    (r ∈ GEN_RADS →
      genWeekendCount c (runSchedule c) r ≤ MAX_MONTHLY_WEEKENDS_GEN ∨
      Violation.genWeekendLimit r (genWeekendCount c (runSchedule c) r) ∈
        violationsOf c (runSchedule c)) ∧
    (r ∉ GEN_RADS → ∀ m,
      Violation.genWeekendLimit r m ∉ violationsOf c (runSchedule c)) := by
  obtain ⟨hg, hi, hm⟩ := countersConsistent_runSchedule c r
  refine ⟨fun hr => ?_, fun hr => ?_, fun hr => ?_, fun hr => ?_,
    fun hr m hmem => hr (genWeekendLimit_mem_pool c (runSchedule c) r m hmem)⟩
  · by_cases hcap : MAX_MONTHLY_GEN < (runSchedule c).genTotal r
    · exact Or.inr (mem_violations_of_genCap c _ r hr hcap)
    · exact Or.inl (by omega)
  · by_cases hcap : MAX_MONTHLY_IRA < (runSchedule c).iraTotal r
    · exact Or.inr (mem_violations_of_iraCap c _ r hr hcap)
    · exact Or.inl (by omega)
  · by_cases hcap : MAX_MONTHLY_MRI < (runSchedule c).mriTotal r
    · exact Or.inr (mem_violations_of_mriCap c _ r hr hcap)
    · exact Or.inl (by omega)
  · by_cases hcap : MAX_MONTHLY_WEEKENDS_GEN < genWeekendCount c (runSchedule c) r
    · exact Or.inr (mem_violations_of_genWeekendLimit c _ r hr hcap)
    · exact Or.inl (by omega)

/-- Witness for C5 at concrete inputs: the GEN cap conjunct at MB, and
the unreported-weekend-exceedance conjunct at the IRA rad MF. -/
theorem spec_c5_caps_or_reported_witness :
    ("MB" ∈ GEN_RADS_WITH_IRA ∧
    (countAssigned cfgPairW (runSchedule cfgPairW) .GEN "MB" ≤ MAX_MONTHLY_GEN ∨
      Violation.genCap "MB" ((runSchedule cfgPairW).genTotal "MB") ∈
        violationsOf cfgPairW (runSchedule cfgPairW))) ∧
    ("MF" ∉ GEN_RADS ∧
      Violation.genWeekendLimit "MF" 4 ∉ violationsOf cfgPairW (runSchedule cfgPairW)) :=
  ⟨⟨by decide, (spec_c5_caps_or_reported cfgPairW "MB").1 (by decide)⟩,
   ⟨by decide, (spec_c5_caps_or_reported cfgPairW "MF").2.2.2.2 (by decide) 4⟩⟩

/-! ## C1: coverage completeness, or a reported gap -/

/-- Claim C1 (amended form).  After a full run, every day of the IRA
section is assigned unconditionally (the missing-days loop falls back to
the full IRA pool); for GEN and MRI, a day is either assigned or appears
as a coverage-gap violation in the summary (gaps are possible when even
the relaxed fallback pool is empty, e.g. every rad vacation-blocked). -/
theorem spec_c1_coverage_or_reported (c : Config) :
    (∀ d, 1 ≤ d → d ≤ c.days → (runSchedule c).assign .IRA d ≠ none) ∧
    (∀ (s : SchedSt) (sec : Sec) (d : ℕ), 1 ≤ d → d ≤ c.days →
      s.assign sec d ≠ none ∨ Violation.coverageGap sec d ∈ violationsOf c s) := by
  constructor
  · intro d hd1 hd2
    have hdays : (enrichSoft c).days = c.days := rfl
    rw [runSchedule_sweeps]
    refine assigned_persists_foldl (mriStep (enrichSoft c))
      (fun s d2 sc e h => assigned_persists_mriStep (enrichSoft c) s d2 sc e h)
      _ _ _ _ ?_
    exact iraCoverSweep (enrichSoft c) (enrichSoft c).days 1 _
      (fun e he1 he2 => absurd he1 (by omega)) d hd1 (by omega)
  · intro s sec d hd1 hd2
    by_cases h : s.assign sec d = none
    · exact Or.inr (mem_violations_of_coverageGap c s sec d hd1 hd2 h)
    · exact Or.inl h

/-- Witness for C1 at a concrete input. -/
theorem spec_c1_coverage_or_reported_witness :
    (runSchedule cfgPairW).assign .IRA 1 ≠ none ∧
    (stPairW.assign .GEN 2 ≠ none ∨
      Violation.coverageGap .GEN 2 ∈ violationsOf cfgPairW stPairW) :=
  ⟨(spec_c1_coverage_or_reported cfgPairW).1 1 (by decide) (by decide),
    (spec_c1_coverage_or_reported cfgPairW).2 stPairW .GEN 2 (by decide) (by decide)⟩

/-! ## Spreadsheet rows and the formula-preserving writer
(`new_write_method.py`) -/

/-- `GEN_ROWS` (rad → Excel row). -/
def GEN_ROWS : List (Rad × ℕ) :=
  [("TA", 5), ("NN", 7), ("MB", 8), ("LK", 9), ("PR", 10), ("AT", 11),
   ("AK", 12), ("MC", 13), ("AO", 14), ("MM", 15), ("IG", 17), ("MF", 18), ("AS", 19)]

/-- `IRA_ROWS`. -/
def IRA_ROWS : List (Rad × ℕ) := [("IG", 24), ("MF", 25), ("AS", 26)]

/-- `MRI_ROWS`. -/
def MRI_ROWS : List (Rad × ℕ) :=
  [("PR", 30), ("AT", 31), ("AK", 32), ("MC", 33), ("AO", 34), ("MM", 35),
   ("MF", 36), ("AS", 37)]

/-- Row lookup (`GEN_ROWS[rad]`); rads outside the table (impossible in a
real run) default to row 0, which belongs to no section. -/
def rowOf (rows : List (Rad × ℕ)) (r : Rad) : ℕ :=
  ((rows.find? (fun p => p.1 == r)).map Prod.snd).getD 0

/-- A spreadsheet is a cell-value map; `none` is an empty cell. -/
def Sheet : Type := ℕ → ℕ → Option String

/-- `ws.cell(row, col).value = v`. -/
def setCell (sh : Sheet) (row col : ℕ) (v : Option String) : Sheet :=
  fun r c => if r = row ∧ c = col then v else sh r c

/-- `write_schedule_to_excel` of `new_write_method.py`: clear the GEN and
IRA blocks for all days of the month (except locked cells), write the GEN
and IRA `X` marks, then clear and write MRI cells only in the day columns
of days present in the MRI assignment map (day 1 is column 4). -/
def write_schedule_to_excel (c : Config) (s : SchedSt) (sh : Sheet) : Sheet :=
  let days := List.range' 1 c.days
  let sh1 := days.foldl (fun sh day =>
    let shG := GEN_ROWS.foldl (fun sh p =>
      if p.1 = "TA" then sh
      else if c.locked .GEN day = some p.1 then sh
      else setCell sh p.2 (day + 3) none) sh
    IRA_ROWS.foldl (fun sh p =>
      if c.locked .IRA day = some p.1 then sh
      else setCell sh p.2 (day + 3) none) shG) sh
  let sh2 := days.foldl (fun sh day =>
    match s.assign .GEN day with
    | some rad => setCell sh (rowOf GEN_ROWS rad) (day + 3) (some "X")
    | none => sh) sh1
  let sh3 := days.foldl (fun sh day =>
    match s.assign .IRA day with
    | some rad => setCell sh (rowOf IRA_ROWS rad) (day + 3) (some "X")
    | none => sh) sh2
  let mriDays := days.filter (fun d => (s.assign .MRI d).isSome)
  let sh4 := mriDays.foldl (fun sh day =>
    MRI_ROWS.foldl (fun sh p =>
      if c.locked .MRI day = some p.1 then sh
      else setCell sh p.2 (day + 3) none) sh) sh3
  mriDays.foldl (fun sh day =>
    match s.assign .MRI day with
    | some rad => setCell sh (rowOf MRI_ROWS rad) (day + 3) (some "X")
    | none => sh) sh4

/-! ## `assign_mri_3rad_days_only` (`new_mri_method.py`) -/

/-- 2-rad-day test: the GEN rad is MRI-capable and distinct from the IRA
rad, or the IRA rad is MRI-capable (Excel formulas then derive MRI). -/
def twoRadDay ( _c : Config) (s : SchedSt) (d : ℕ) : Bool :=
  let genRad := s.assign .GEN d
  let iraRad := s.assign .IRA d
  let genCan := match genRad with
    | some g => MRI_RADS.contains g && (iraRad != some g)
    | none => false
  let iraCan := match iraRad with
    | some i => MRI_RADS.contains i
    | none => false
  genCan || iraCan

/-- Python's strictly-smaller running-minimum selection over `ℕ` counts
(`for rad in available: if cnt < min_count: best = rad`). -/
def pyMinNat {α : Type} (l : List α) (f : α → ℕ) : Option α :=
  l.foldl (fun acc r =>
    match acc with
    | none => some r
    | some b => if f r < f b then some r else acc) none

/-- State of the 3-rad-day MRI pass: schedule plus the two pass-local
balance counters (`mri_only_weekend_triplets`, `mri_only_weekdays`). -/
structure Mri3State where
  st : SchedSt
  triplets : Rad → ℕ
  weekdays : Rad → ℕ

/-- Strategy 3 / 4 for one 3-rad Thursday-Friday-Saturday triplet. -/
def mri3WeekendStep (c : Config) (acc : Mri3State) (d : ℕ) : Mri3State :=
  let s := acc.st
  let candidate := ([s.assign .GEN d, s.assign .GEN (d + 1),
    s.assign .GEN (d + 2)].filterMap id).find? (fun g => MRI_RADS.contains g)
  match candidate with
  | some g =>
    { acc with st := recordAt .MRI (d + 2) g .weekend (recordAt .MRI (d + 1) g .weekend
        (recordAt .MRI d g .thu s)) }
  | none =>
    let avail := MRI_RADS.filter (fun rad =>
      ([d, d + 1, d + 2] : List ℕ).all (fun day =>
        is_available c s rad day .MRI &&
        s.assign .GEN day != some rad && s.assign .IRA day != some rad))
    let avail2 := if avail.isEmpty then MRI_RADS else avail
    match pyMinNat avail2 acc.triplets with
    | some best =>
      { acc with
        st := recordAt .MRI (d + 2) best .weekend (recordAt .MRI (d + 1) best .weekend
          (recordAt .MRI d best .thu s))
        triplets := fun r => if r = best then acc.triplets r + 1 else acc.triplets r }
    | none => acc

/-- Strategy 4 for one leftover 3-rad weekday. -/
def mri3WeekdayStep (c : Config) (acc : Mri3State) (d : ℕ) : Mri3State :=
  let s := acc.st
  let avail := MRI_RADS.filter (fun rad =>
    is_available c s rad d .MRI &&
    s.assign .GEN d != some rad && s.assign .IRA d != some rad)
  let avail2 := if avail.isEmpty then MRI_RADS else avail
  match pyMinNat avail2 acc.weekdays with
  | some best =>
    { acc with
      st := recordAt .MRI d best (c.dayType d) s
      weekdays := fun r => if r = best then acc.weekdays r + 1 else acc.weekdays r }
  | none => acc

/-- `assign_mri_3rad_days_only`: classify every day as 2-rad or 3-rad,
group the 3-rad days into full Thursday-Friday-Saturday triplets plus
leftover weekdays, and assign only those days. -/
def assign_mri_3rad_days_only (c : Config) (s0 : SchedSt) : SchedSt :=
  let days := List.range' 1 c.days
  let threeRad := days.filter (fun d => !twoRadDay c s0 d)
  if threeRad.isEmpty then s0
  else
    let weekends := days.filter (fun d =>
      c.dayType d == DayType.thu && d + 2 ≤ c.days &&
      threeRad.contains d && threeRad.contains (d + 1) && threeRad.contains (d + 2))
    let covered := weekends.flatMap (fun d => [d, d + 1, d + 2])
    let weekdaysL := threeRad.filter (fun d => !covered.contains d)
    let acc1 := weekends.foldl (fun acc d => mri3WeekendStep c acc d)
      ⟨s0, fun _ => 0, fun _ => 0⟩
    let acc2 := weekdaysL.foldl (fun acc d => mri3WeekdayStep c acc d) acc1
    acc2.st
/-! ## Frame lemmas for the writer and the 3-rad MRI pass -/

lemma setCell_frame (sh : Sheet) (r0 c0 : ℕ) (v : Option String) (row col : ℕ)
    (h : ¬(row = r0 ∧ col = c0)) : setCell sh r0 c0 v row col = sh row col := by
  simp only [setCell]
  rw [if_neg h]

lemma foldl_sheet_frame {α : Type} (G : Sheet → α → Sheet) (row col : ℕ) :
    ∀ (l : List α), (∀ sh a, a ∈ l → G sh a row col = sh row col) →
    ∀ sh, (l.foldl G sh) row col = sh row col := by
  intro l
  induction l with
  | nil => exact fun _ sh => rfl
  | cons a t ih =>
    intro hG sh
    simp only [List.foldl_cons]
    rw [ih (fun sh2 b hb => hG sh2 b (List.mem_cons_of_mem a hb)) (G sh a)]
    exact hG sh a (List.mem_cons_self a t)

lemma rowOf_lt (rows : List (Rad × ℕ)) (bound : ℕ)
    (h : ∀ p ∈ rows, p.2 < bound) (h0 : 0 < bound) (r : Rad) :
    rowOf rows r < bound := by
  unfold rowOf
  cases hf : rows.find? (fun p => p.1 == r) with
  | none => simpa using h0
  | some p =>
    exact h p (List.mem_of_find?_eq_some hf)

/-- Rows of the MRI block are all at least 30. -/
lemma mri_row_ge (row : ℕ) (hrow : row ∈ MRI_ROWS.map Prod.snd) : 30 ≤ row := by
  fin_cases hrow <;> omega

lemma mri3WeekendStep_mri_frame (c : Config) (acc : Mri3State) (w e : ℕ)
    (he : e ≠ w ∧ e ≠ w + 1 ∧ e ≠ w + 2) :
    (mri3WeekendStep c acc w).st.assign .MRI e = acc.st.assign .MRI e := by
  simp only [mri3WeekendStep]
  split
  · rw [recordAt_assign_of_ne _ _ _ _ _ _ _ (fun h => he.2.2 h.2),
      recordAt_assign_of_ne _ _ _ _ _ _ _ (fun h => he.2.1 h.2),
      recordAt_assign_of_ne _ _ _ _ _ _ _ (fun h => he.1 h.2)]
  · split
    · rw [recordAt_assign_of_ne _ _ _ _ _ _ _ (fun h => he.2.2 h.2),
        recordAt_assign_of_ne _ _ _ _ _ _ _ (fun h => he.2.1 h.2),
        recordAt_assign_of_ne _ _ _ _ _ _ _ (fun h => he.1 h.2)]
    · rfl

lemma mri3WeekdayStep_mri_frame (c : Config) (acc : Mri3State) (w e : ℕ)
    (he : e ≠ w) :
    (mri3WeekdayStep c acc w).st.assign .MRI e = acc.st.assign .MRI e := by
  simp only [mri3WeekdayStep]
  split
  · rw [recordAt_assign_of_ne _ _ _ _ _ _ _ (fun h => he h.2)]
  · rfl

lemma mri3_weekend_fold_frame (c : Config) :
    ∀ (l : List ℕ) (acc : Mri3State) (e : ℕ),
      (∀ w ∈ l, e ≠ w ∧ e ≠ w + 1 ∧ e ≠ w + 2) →
      ((l.foldl (fun acc d => mri3WeekendStep c acc d) acc).st.assign .MRI e =
        acc.st.assign .MRI e) := by
  intro l
  induction l with
  | nil => exact fun acc e _ => rfl
  | cons a t ih =>
    intro acc e h
    simp only [List.foldl_cons]
    rw [ih _ e (fun w hw => h w (List.mem_cons_of_mem a hw))]
    exact mri3WeekendStep_mri_frame c acc a e (h a (List.mem_cons_self a t))

lemma mri3_weekday_fold_frame (c : Config) :
    ∀ (l : List ℕ) (acc : Mri3State) (e : ℕ), (∀ w ∈ l, e ≠ w) →
      ((l.foldl (fun acc d => mri3WeekdayStep c acc d) acc).st.assign .MRI e =
        acc.st.assign .MRI e) := by
  intro l
  induction l with
  | nil => exact fun acc e _ => rfl
  | cons a t ih =>
    intro acc e h
    simp only [List.foldl_cons]
    rw [ih _ e (fun w hw => h w (List.mem_cons_of_mem a hw))]
    exact mri3WeekdayStep_mri_frame c acc a e (h a (List.mem_cons_self a t))

/-! ## C9: the writer touches MRI cells only on 3-rad days -/

/-- Claim C9.  (1) `write_schedule_to_excel` of `new_write_method.py`
leaves every MRI-row cell unchanged unless its column is the day column of
a day present in the MRI assignment map; in particular the formula cells
of 2-rad days are neither cleared nor overwritten.  (2) Starting from an
empty MRI map, `assign_mri_3rad_days_only` never adds a 2-rad day to the
MRI map, so the days present in it are exactly 3-rad days. -/
theorem spec_c9_mri_frame :
    (∀ (c : Config) (s : SchedSt) (sh : Sheet) (row col : ℕ),
      row ∈ MRI_ROWS.map Prod.snd →
      (∀ d, 1 ≤ d → d ≤ c.days → (s.assign .MRI d).isSome = true → col ≠ d + 3) →
      write_schedule_to_excel c s sh row col = sh row col)
    ∧ (∀ (c : Config) (s : SchedSt) (d : ℕ), (∀ e, s.assign .MRI e = none) →
      twoRadDay c s d = true → (assign_mri_3rad_days_only c s).assign .MRI d = none) := by
  constructor
  · intro c s sh row col hrow hcol
    have hge := mri_row_ge row hrow
    have hmricell : ∀ d, d ∈ (List.range' 1 c.days).filter
        (fun d => (s.assign .MRI d).isSome) → col ≠ d + 3 := by
      intro d hd
      obtain ⟨hd1, hd2⟩ := List.mem_filter.1 hd
      rw [List.mem_range'_1] at hd1
      exact hcol d (by omega) (by omega) hd2
    simp only [write_schedule_to_excel]
    refine (foldl_sheet_frame _ row col _ ?hwm _).trans
      ((foldl_sheet_frame _ row col _ ?hcm _).trans
      ((foldl_sheet_frame _ row col _ ?hwi _).trans
      ((foldl_sheet_frame _ row col _ ?hwg _).trans
      (foldl_sheet_frame _ row col _ ?hcg _))))
    case hwm =>
      intro sh2 day hday
      cases ha : s.assign .MRI day with
      | none => rfl
      | some rad =>
        exact setCell_frame _ _ _ _ _ _ (fun hc => hmricell day hday hc.2)
    case hcm =>
      intro sh2 day hday
      refine foldl_sheet_frame _ row col _ (fun sh3 p hp => ?_) sh2
      split
      · rfl
      · exact setCell_frame _ _ _ _ _ _ (fun hc => hmricell day hday hc.2)
    case hwi =>
      intro sh2 day hday
      cases ha : s.assign .IRA day with
      | none => rfl
      | some rad =>
        refine setCell_frame _ _ _ _ _ _ (fun hc => ?_)
        have hlt : rowOf IRA_ROWS rad < 30 := rowOf_lt IRA_ROWS 30 (by decide) (by decide) rad
        obtain ⟨hc1, hc2⟩ := hc
        omega
    case hwg =>
      intro sh2 day hday
      cases ha : s.assign .GEN day with
      | none => rfl
      | some rad =>
        refine setCell_frame _ _ _ _ _ _ (fun hc => ?_)
        have hlt : rowOf GEN_ROWS rad < 30 := rowOf_lt GEN_ROWS 30 (by decide) (by decide) rad
        obtain ⟨hc1, hc2⟩ := hc
        omega
    case hcg =>
      intro sh2 day hday
      refine (foldl_sheet_frame _ row col _ (fun sh3 p hp => ?pira) _).trans
        (foldl_sheet_frame _ row col _ (fun sh3 p hp => ?pgen) _)
      case pira =>
        split
        · rfl
        · refine setCell_frame _ _ _ _ _ _ (fun hc => ?_)
          obtain ⟨hc1, hc2⟩ := hc
          fin_cases hp <;> omega
      case pgen =>
        split
        · rfl
        · split
          · rfl
          · refine setCell_frame _ _ _ _ _ _ (fun hc => ?_)
            obtain ⟨hc1, hc2⟩ := hc
            fin_cases hp <;> omega
  · intro c s d hempty htwo
    simp only [assign_mri_3rad_days_only]
    split
    · exact hempty d
    · have hnotmem : ∀ e, e ∈ (List.range' 1 c.days).filter
          (fun e => !twoRadDay c s e) → d ≠ e := by
        intro e he hde
        subst hde
        obtain ⟨_, hf⟩ := List.mem_filter.1 he
        rw [htwo] at hf
        exact Bool.noConfusion hf
      rw [mri3_weekday_fold_frame c _ _ d (fun w hw =>
        hnotmem w (List.mem_of_mem_filter hw))]
      rw [mri3_weekend_fold_frame c _ _ d (fun w hw => ?_)]
      · exact hempty d
      · obtain ⟨hw1, hw2⟩ := List.mem_filter.1 hw
        simp only [Bool.and_eq_true] at hw2
        obtain ⟨⟨⟨⟨hthu, hsat⟩, hm0⟩, hm1⟩, hm2⟩ := hw2
        exact ⟨hnotmem w (List.mem_of_elem_eq_true hm0),
          hnotmem (w + 1) (List.mem_of_elem_eq_true hm1),
          hnotmem (w + 2) (List.mem_of_elem_eq_true hm2)⟩

/-- A state with MF on IRA day 1 and an empty MRI map: day 1 is a 2-rad
day. -/
def stMriW : SchedSt :=
  { initSt with assign := fun sec d =>
      if sec = Sec.IRA ∧ d = 1 then some "MF" else none }

/-- An all-empty sheet. -/
def shW : Sheet := fun _ _ => none

/-- Witness for C9 at concrete inputs: MRI row 30, a column outside every
assigned MRI day column, and the 2-rad day 1 of `stMriW`. -/
theorem spec_c9_mri_frame_witness :
    (30 ∈ MRI_ROWS.map Prod.snd ∧
      write_schedule_to_excel cfgPairW stMriW shW 30 100 = shW 30 100) ∧
    (twoRadDay cfgPairW stMriW 1 = true ∧
      (assign_mri_3rad_days_only cfgPairW stMriW).assign .MRI 1 = none) :=
  ⟨⟨by decide, spec_c9_mri_frame.1 cfgPairW stMriW shW 30 100 (by decide)
      (fun d h1 h2 hs => absurd hs (by simp [stMriW]))⟩,
   ⟨by decide, spec_c9_mri_frame.2 cfgPairW stMriW 1 (fun e => rfl) (by decide)⟩⟩

/-- A state with MB on GEN day 10, used as the C3 witness state. -/
def stVacW : SchedSt :=
  { initSt with assign := fun sec d =>
      if sec = Sec.GEN ∧ d = 10 then some "MB" else none }

/-- Witness for C3 at a concrete input: the placement of MB on their
vacation day 10 is reported. -/
theorem spec_c3_vacation_reported_witness :
    ("MB" ∈ ALL_RADS ∧ cfgC3ce.vacation "MB" 10 = true ∧
      stVacW.assign .GEN 10 = some "MB") ∧
    Violation.vacationAssigned .GEN "MB" 10 ∈ violationsOf cfgC3ce stVacW :=
  ⟨⟨by decide, by decide, by decide⟩,
    (spec_c3_vacation_reported cfgC3ce stVacW "MB" 10 .GEN (by decide) (by decide)
      (by decide) (by decide)).1 (by decide)⟩

end Schedules
